import Mathlib

/-!
Verification of the kravex streaming migration pipeline.

This file embeds the core of the `kvx` crate in Lean 4:

* the JSON value model used by the Rally-to-Elasticsearch transform
  (a model of the `serde_json` parser and compact serializer, restricted
  to integer numerals; floating point formatting is out of scope);
* the per-line transform `transform`, `build_es_action_line` and
  `escape_json_string` from `src/crates/kvx/src/transforms/rally_s3_to_es.rs`;
* the page transforms and the `DocumentTransformer` resolver from
  `src/crates/kvx/src/transforms.rs`;
* the composers from `src/crates/kvx/src/composers.rs`;
* the `SinkWorker` buffering loop from
  `src/crates/kvx/src/supervisors/workers/sink_worker.rs`, modelled as a
  state machine over the list of pages delivered by the channel;
* the paged line readers of `FileSource::next_page`
  (`src/crates/kvx/src/backends/file/file_source.rs`),
  `S3RallySource::next_page`
  (`src/crates/kvx/src/backends/s3_rally/s3_rally_source.rs`) and
  `InMemorySource::next_page`
  (`src/crates/kvx/src/backends/in_mem/in_mem_source.rs`).

Theorems about these definitions settle the claims of the specification.
-/

namespace Kvx

/-! ## JSON value model (serde_json, restricted to integer numerals) -/

/-- Model of `serde_json::Value`.  Objects are association lists kept in
sorted key order with unique keys, mirroring the `BTreeMap` that backs
`serde_json::Map` under default features.  Numbers are modelled as
integers: Rally `ObjectID`s are integers and float formatting is outside
the scope of this embedding. -/
inductive Json where
  | null
  | bool (b : Bool)
  | num (n : Int)
  | str (s : String)
  | arr (elems : List Json)
  | obj (members : List (String × Json))
deriving Inhabited

/-- Lexicographic order on character lists, used to model the key order of
the `BTreeMap` behind `serde_json::Map`. -/
def charsLt : List Char → List Char → Bool
  | [], [] => false
  | [], _ :: _ => true
  | _ :: _, [] => false
  | a :: as, b :: bs =>
    if a.toNat < b.toNat then true
    else if b.toNat < a.toNat then false
    else charsLt as bs

/-- String order used for object keys (byte order coincides with scalar
value order for UTF-8). -/
def strLt (a b : String) : Bool := charsLt a.data b.data

/-- Insert a member into a sorted association list, replacing an existing
entry with the same key — the behaviour of `BTreeMap::insert` while
`serde_json` parses an object. -/
def insertMember (k : String) (v : Json) : List (String × Json) → List (String × Json)
  | [] => [(k, v)]
  | kv :: rest =>
    if k = kv.1 then (k, v) :: rest
    else if strLt k kv.1 then (k, v) :: kv :: rest
    else kv :: insertMember k v rest

/-- Whitespace accepted between JSON tokens: space, tab, line feed,
carriage return. -/
def isJsonWs (c : Char) : Bool :=
  c == ' ' || c == '\t' || c == '\n' || c == '\r'

/-- Skip leading JSON whitespace. -/
def skipWs (cs : List Char) : List Char := cs.dropWhile isJsonWs

/-- Value of one hexadecimal digit. -/
def hexVal (c : Char) : Option Nat :=
  if '0'.toNat ≤ c.toNat ∧ c.toNat ≤ '9'.toNat then some (c.toNat - '0'.toNat)
  else if 'a'.toNat ≤ c.toNat ∧ c.toNat ≤ 'f'.toNat then some (c.toNat - 'a'.toNat + 10)
  else if 'A'.toNat ≤ c.toNat ∧ c.toNat ≤ 'F'.toNat then some (c.toNat - 'A'.toNat + 10)
  else none

/-- Value of a four digit hexadecimal escape. -/
def hex4 (a b c d : Char) : Option Nat := do
  let x ← hexVal a
  let y ← hexVal b
  let z ← hexVal c
  let w ← hexVal d
  pure (x * 4096 + y * 256 + z * 16 + w)

/-- Short escapes accepted after a backslash in a JSON string literal. -/
def escapeMap (e : Char) : Option Char :=
  match e with
  | '"' => some '"'
  | '\\' => some '\\'
  | '/' => some '/'
  | 'b' => some '\x08'
  | 'f' => some '\x0c'
  | 'n' => some '\n'
  | 'r' => some '\r'
  | 't' => some '\t'
  | _ => none

/-- Parse the body of a JSON string literal (the opening quote already
consumed), returning the decoded characters and the input following the
closing quote.  Raw control characters are rejected and `\uXXXX` escapes
are decoded, combining surrogate pairs, as `serde_json` does.  The fuel
argument bounds the number of decoded characters; every caller supplies
at least one unit of fuel per remaining input character, which is always
enough because each decoded character consumes at least one input
character. -/
def parseStringBody : Nat → List Char → Option (List Char × List Char)
  | 0, _ => none
  | _ + 1, [] => none
  | fuel + 1, c :: rest =>
    if c = '"' then some ([], rest)
    else if c = '\\' then
      match rest with
      | 'u' :: a :: b :: c2 :: d :: rest2 =>
        (match hex4 a b c2 d with
         | none => none
         | some n =>
           if 0xD800 ≤ n ∧ n ≤ 0xDBFF then
             match rest2 with
             | '\\' :: 'u' :: a2 :: b2 :: c3 :: d2 :: rest3 =>
               (match hex4 a2 b2 c3 d2 with
                | none => none
                | some m =>
                  if 0xDC00 ≤ m ∧ m ≤ 0xDFFF then
                    match parseStringBody fuel rest3 with
                    | none => none
                    | some (cs, r) =>
                      some (Char.ofNat (0x10000 + (n - 0xD800) * 0x400 + (m - 0xDC00)) :: cs, r)
                  else none)
             | _ => none
           else if 0xDC00 ≤ n ∧ n ≤ 0xDFFF then none
           else
             match parseStringBody fuel rest2 with
             | none => none
             | some (cs, r) => some (Char.ofNat n :: cs, r))
      | e :: rest2 =>
        (match escapeMap e with
         | none => none
         | some c3 =>
           match parseStringBody fuel rest2 with
           | none => none
           | some (cs, r) => some (c3 :: cs, r))
      | [] => none
    else if c.toNat < 0x20 then none
    else
      match parseStringBody fuel rest with
      | none => none
      | some (cs, r) => some (c :: cs, r)

/-- The continuation of a `\uXXXX` escape with decoded value `n`: reject
lone surrogates, combine surrogate pairs, otherwise emit the character
and continue (named so proofs can manipulate the escape branch of
`parseStringBody`). -/
def uniBody (fuel : Nat) (X : List Char) (n : Nat) : Option (List Char × List Char) :=
  if 0xD800 ≤ n ∧ n ≤ 0xDBFF then
    match X with
    | '\\' :: 'u' :: a2 :: b2 :: c3 :: d2 :: rest3 =>
      (match hex4 a2 b2 c3 d2 with
       | none => none
       | some m =>
         if 0xDC00 ≤ m ∧ m ≤ 0xDFFF then
           match parseStringBody fuel rest3 with
           | none => none
           | some (cs, r) =>
             some (Char.ofNat (0x10000 + (n - 0xD800) * 0x400 + (m - 0xDC00)) :: cs, r)
         else none)
    | _ => none
  else if 0xDC00 ≤ n ∧ n ≤ 0xDFFF then none
  else
    match parseStringBody fuel X with
    | none => none
    | some (cs, r) => some (Char.ofNat n :: cs, r)

/-- Decimal value of a digit list. -/
def digitsToNat (ds : List Char) : Nat :=
  ds.foldl (fun n c => n * 10 + (c.toNat - '0'.toNat)) 0

/-- Parse a JSON integer numeral: optional minus sign, then digits with no
redundant leading zero.  Fractional and exponent parts are outside this
model (the characters are left in the remainder, which makes the
enclosing parse fail, mirroring that floats are unsupported here). -/
def parseNumber (cs : List Char) : Option (Json × List Char) :=
  let negAndTail : Bool × List Char :=
    match cs with
    | '-' :: t => (true, t)
    | _ => (false, cs)
  let ds := negAndTail.2.takeWhile Char.isDigit
  let rest := negAndTail.2.dropWhile Char.isDigit
  if ds.isEmpty then none
  else if 1 < ds.length ∧ ds.head? = some '0' then none
  else
    let n : Int := Int.ofNat (digitsToNat ds)
    some (.num (if negAndTail.1 then -n else n), rest)

mutual

/-- Parse one JSON value, consuming leading whitespace.  The fuel argument
bounds the recursion depth; `parseJson` supplies more fuel than any input
of the given length can consume. -/
def parseValue : Nat → List Char → Option (Json × List Char)
  | 0, _ => none
  | fuel + 1, cs =>
    match skipWs cs with
    | [] => none
    | '\x7b' :: rest =>
      (match skipWs rest with
       | '\x7d' :: rest2 => some (.obj [], rest2)
       | _ =>
         match parseMembers fuel (skipWs rest) [] with
         | none => none
         | some (kvs, r) => some (.obj kvs, r))
    | '[' :: rest =>
      (match skipWs rest with
       | ']' :: rest2 => some (.arr [], rest2)
       | _ =>
         match parseElems fuel (skipWs rest) [] with
         | none => none
         | some (xs, r) => some (.arr xs, r))
    | '"' :: rest =>
      (match parseStringBody fuel rest with
       | none => none
       | some (cs2, r) => some (.str (String.mk cs2), r))
    | 'n' :: 'u' :: 'l' :: 'l' :: rest => some (.null, rest)
    | 't' :: 'r' :: 'u' :: 'e' :: rest => some (.bool true, rest)
    | 'f' :: 'a' :: 'l' :: 's' :: 'e' :: rest => some (.bool false, rest)
    | other => parseNumber other

/-- Parse the members of a JSON object after the opening brace (first key
is the next token), accumulating into a sorted map. -/
def parseMembers : Nat → List Char → List (String × Json) → Option (List (String × Json) × List Char)
  | 0, _, _ => none
  | fuel + 1, cs, acc =>
    match skipWs cs with
    | '"' :: rest =>
      (match parseStringBody fuel rest with
       | none => none
       | some (kcs, r1) =>
         match skipWs r1 with
         | ':' :: r2 =>
           (match parseValue fuel r2 with
            | none => none
            | some (v, r3) =>
              let acc2 := insertMember (String.mk kcs) v acc
              match skipWs r3 with
              | ',' :: r4 => parseMembers fuel r4 acc2
              | '\x7d' :: r4 => some (acc2, r4)
              | _ => none)
         | _ => none)
    | _ => none

/-- Parse the elements of a JSON array after the opening bracket. -/
def parseElems : Nat → List Char → List Json → Option (List Json × List Char)
  | 0, _, _ => none
  | fuel + 1, cs, acc =>
    match parseValue fuel cs with
    | none => none
    | some (v, r) =>
      match skipWs r with
      | ',' :: r2 => parseElems fuel r2 (acc ++ [v])
      | ']' :: r2 => some (acc ++ [v], r2)
      | _ => none

end

/-- Model of `serde_json::from_str`: parse one value and require that only
whitespace follows. -/
def parseJson (s : String) : Option Json :=
  match parseValue (s.data.length + 1) s.data with
  | none => none
  | some (v, r) => if (skipWs r).isEmpty then some v else none

/-- Lower case hexadecimal digit. -/
def hexChar (n : Nat) : Char :=
  if n < 10 then Char.ofNat ('0'.toNat + n) else Char.ofNat ('a'.toNat + (n - 10))

/-- Four lower case hexadecimal digits, as produced by a `{:04x}` format. -/
def hexDigits4 (n : Nat) : List Char :=
  [hexChar (n / 4096 % 16), hexChar (n / 256 % 16), hexChar (n / 16 % 16), hexChar (n % 16)]

/-- Escape one character the way the `serde_json` serializer does when
writing a string literal. -/
def serdeEscapeChar (c : Char) : List Char :=
  if c = '"' then ['\\', '"']
  else if c = '\\' then ['\\', '\\']
  else if c = '\x08' then ['\\', 'b']
  else if c = '\x0c' then ['\\', 'f']
  else if c = '\n' then ['\\', 'n']
  else if c = '\r' then ['\\', 'r']
  else if c = '\t' then ['\\', 't']
  else if c.toNat < 0x20 then '\\' :: 'u' :: hexDigits4 c.toNat
  else [c]

/-- Serialize a string as a JSON string literal, `serde_json` style. -/
def serializeString (s : String) : String :=
  "\"" ++ String.mk (s.data.flatMap serdeEscapeChar) ++ "\""

mutual

/-- Compact serialization, modelling `serde_json::to_string`. -/
def serializeJson : Json → String
  | .null => "null"
  | .bool true => "true"
  | .bool false => "false"
  | .num n => toString n
  | .str s => serializeString s
  | .arr xs => "[" ++ serializeElems xs ++ "]"
  | .obj kvs => "\x7b" ++ serializeMembers kvs ++ "\x7d"

/-- Comma separated serialization of array elements. -/
def serializeElems : List Json → String
  | [] => ""
  | [x] => serializeJson x
  | x :: y :: xs => serializeJson x ++ "," ++ serializeElems (y :: xs)

/-- Comma separated serialization of object members. -/
def serializeMembers : List (String × Json) → String
  | [] => ""
  | [kv] => serializeString kv.1 ++ ":" ++ serializeJson kv.2
  | kv :: kv2 :: kvs => serializeString kv.1 ++ ":" ++ serializeJson kv.2 ++ "," ++ serializeMembers (kv2 :: kvs)

end

/-- Lookup of a key in an object member list (`serde_json::Map::get`;
parsed maps have unique keys, so first match is the match). -/
def lookupMember (k : String) : List (String × Json) → Option Json
  | [] => none
  | kv :: rest => if kv.1 = k then some kv.2 else lookupMember k rest

/-- Model of `Value::get(key)`: a member lookup on objects, `None` on every
other value. -/
def jsonGet (v : Json) (k : String) : Option Json :=
  match v with
  | .obj kvs => lookupMember k kvs
  | _ => none

/-- Remove every member with the given key (`serde_json::Map::remove`; on
the unique-key maps produced by parsing this removes the one entry). -/
def removeMember (k : String) (kvs : List (String × Json)) : List (String × Json) :=
  kvs.filter (fun kv => kv.1 != k)

namespace rally_s3_to_es

/-- The six Rally API metadata fields stripped at top level,
`THE_METADATA_FIELDS_WE_DONT_NEED` in `rally_s3_to_es.rs`. -/
def THE_METADATA_FIELDS_WE_DONT_NEED : List String :=
  ["_rallyAPIMajor", "_rallyAPIMinor", "_ref", "_refObjectUUID", "_objectVersion", "_CreatedAt"]

/-- String form of an extracted `ObjectID` value: numbers stringified,
strings used as-is, anything else in its JSON textual form — the match in
phase 2 of `transform`. -/
def oidToString : Json → String
  | .num n => toString n
  | .str s => s
  | j => serializeJson j

/-- Phase 3 of `transform`: for objects, remove the six metadata fields at
top level; every other value is left unchanged. -/
def stripMeta : Json → Json
  | .obj kvs => .obj (THE_METADATA_FIELDS_WE_DONT_NEED.foldl (fun m k => removeMember k m) kvs)
  | v => v

/-- Escape a string for embedding in the action line, from
`escape_json_string` in `rally_s3_to_es.rs`: the slow path escapes quote,
backslash, newline, carriage return, tab, and other control characters as
lower case `\uXXXX`. -/
def escapeCharSlow (c : Char) : List Char :=
  if c = '"' then ['\\', '"']
  else if c = '\\' then ['\\', '\\']
  else if c = '\n' then ['\\', 'n']
  else if c = '\r' then ['\\', 'r']
  else if c = '\t' then ['\\', 't']
  else if c.toNat < 0x20 then '\\' :: 'u' :: hexDigits4 c.toNat
  else [c]

/-- Model of `escape_json_string`: the fast path returns the string
unchanged when no byte is a quote, a backslash or below `0x20` (for UTF-8
the byte condition coincides with the same condition on characters); the
slow path escapes character by character. -/
def escape_json_string (s : String) : String :=
  if s.data.all (fun c => c != '"' && c != '\\' && decide (0x20 ≤ c.toNat)) then s
  else String.mk (s.data.flatMap escapeCharSlow)

/-- Model of `build_es_action_line`: the exact action line text, with the
id escaped, or the empty action metadata when no id was found. -/
def build_es_action_line : Option String → String
  | some id => "\x7b\"index\":\x7b\"_id\":\"" ++ escape_json_string id ++ "\"\x7d\x7d"
  | none => "\x7b\"index\":\x7b\x7d\x7d"

/-- Model of the free function `transform` in `rally_s3_to_es.rs`: parse
the raw line, extract `ObjectID`, strip the metadata fields at top level,
re-serialize, and combine action line and source line with a newline. -/
def transform (raw : String) : Except String String :=
  match parseJson raw with
  | none => .error "Rally JSON parse failed"
  | some doc =>
    let the_document_identity := (jsonGet doc "ObjectID").map oidToString
    let doc2 := stripMeta doc
    let the_cleaned_body := serializeJson doc2
    let the_action_line := build_es_action_line the_document_identity
    .ok (the_action_line ++ "\n" ++ the_cleaned_body)

end rally_s3_to_es

/-- Split a character list at newlines, the semantics of Rust
`str::split('\n')`: the empty input gives one empty piece, and every
newline separates two pieces. -/
def splitNLChars : List Char → List (List Char)
  | [] => [[]]
  | c :: rest =>
    if c = '\n' then [] :: splitNLChars rest
    else
      match splitNLChars rest with
      | [] => [[c]]
      | l :: ls => (c :: l) :: ls

/-- Split a page at newlines into its lines. -/
def splitNewline (page : String) : List String :=
  (splitNLChars page.data).map String.mk

/-- Nonempty lines of a raw page: split on newline, skipping empty lines. -/
def nonemptyLines (page : String) : List String :=
  (splitNewline page).filter (fun l => l != "")

/-- Modelled from the spec: the page-level RallyToBulk transform (the
`RallyS3ToEs` struct implementing the `Transform` trait is absent from
`src/`; only its per-line helper `transform` is present).  Per the spec it
splits the page by newline, skips empty lines, transforms each line, and a
parse failure fails the whole page with a message identifying the line. -/
def rally_page_transform (page : String) : Except String (List String) :=
  (nonemptyLines page).mapM (fun l =>
    match rally_s3_to_es.transform l with
    | .ok item => Except.ok item
    | .error e => Except.error ("failed to transform line [" ++ l ++ "]: " ++ e))

/-- Modelled from the spec: the `Passthrough` transform returns a single
item that is the entire page (the `Passthrough` struct implementing the
`Transform` trait is absent from `src/`). -/
def passthrough_transform (page : String) : Except String (List String) :=
  Except.ok [page]

/-- The dispatching transform enum `DocumentTransformer` from
`transforms.rs`. -/
inductive DocumentTransformer where
  | rallyS3ToEs
  | passthrough
deriving DecidableEq, Inhabited

/-- Dispatch of `Transform::transform` through `DocumentTransformer`. -/
def DocumentTransformer.transform : DocumentTransformer → String → Except String (List String)
  | .rallyS3ToEs, page => rally_page_transform page
  | .passthrough, page => passthrough_transform page

/-! ## Configuration kinds and the startup resolver -/

/-- Constructors of the `SourceConfig` enum in `app_config.rs`:
Elasticsearch (the spec calls it ClusterScroll), File, S3Rally (the spec
calls it ObjectStore), InMemory. -/
inductive SourceKind where
  | elasticsearch
  | file
  | s3Rally
  | inMemory
deriving DecidableEq

/-- Constructors of the `SinkConfig` enum: Elasticsearch (the spec calls
it BulkHttp), File, InMemory. -/
inductive SinkKind where
  | elasticsearch
  | file
  | inMemory
deriving DecidableEq

/-- Model of `DocumentTransformer::from_configs` in `transforms.rs`: the
explicit match arms return a transformer, the catch-all arm panics
(modelled as `none`, fatal at startup). -/
def DocumentTransformer.from_configs : SourceKind → SinkKind → Option DocumentTransformer
  | .file, .elasticsearch => some .rallyS3ToEs
  | .file, .file => some .passthrough
  | .inMemory, .inMemory => some .passthrough
  | .elasticsearch, .file => some .passthrough
  | _, _ => none

/-! ## Composers -/

/-- The dispatching composer enum `ComposerBackend` from `composers.rs`. -/
inductive ComposerBackend where
  | ndjson
  | jsonArray
deriving DecidableEq

/-- Concatenation of a list of strings, the result of a loop that pushes
each element onto a growing payload. -/
def joinAll : List String → String
  | [] => ""
  | x :: xs => x ++ joinAll xs

/-- Comma separated concatenation: push each item, with a comma before
every item but the first — the `JsonArrayComposer` assembly loop. -/
def joinCommaSep : List String → String
  | [] => ""
  | [x] => x
  | x :: y :: xs => x ++ "," ++ joinCommaSep (y :: xs)

/-- Model of `NdjsonComposer::compose`: transform each page, then append
every item followed by a newline (trailing newline included). -/
def NdjsonComposer.compose (pages : List String) (t : DocumentTransformer) : Except String String := do
  let itemLists ← pages.mapM t.transform
  pure (joinAll (itemLists.flatten.map (fun item => item ++ "\n")))

/-- Model of `JsonArrayComposer::compose`: transform each page, then wrap
all items in brackets with comma separators. -/
def JsonArrayComposer.compose (pages : List String) (t : DocumentTransformer) : Except String String := do
  let itemLists ← pages.mapM t.transform
  pure ("[" ++ joinCommaSep itemLists.flatten ++ "]")

/-- Dispatch of `Composer::compose` through `ComposerBackend`. -/
def ComposerBackend.compose : ComposerBackend → List String → DocumentTransformer → Except String String
  | .ndjson, pages, t => NdjsonComposer.compose pages t
  | .jsonArray, pages, t => JsonArrayComposer.compose pages t

/-- Model of `ComposerBackend::from_sink_config`. -/
def ComposerBackend.from_sink_config : SinkKind → ComposerBackend
  | .elasticsearch => .ndjson
  | .file => .ndjson
  | .inMemory => .jsonArray

/-! ## SinkWorker -/

/-- The flush headroom `BUFFER_EPSILON_BYTES` from `sink_worker.rs`:
64 KiB. -/
def BUFFER_EPSILON_BYTES : Nat := 64 * 1024

/-- Observable sink operations performed by a `SinkWorker`, in order. -/
inductive SinkEvent where
  | send (payload : String)
  | close
deriving DecidableEq

/-- State of one `SinkWorker`: the page buffer, its byte count, and the
trace of sink operations performed so far. -/
structure WorkerState where
  buffer : List String
  buffer_bytes : Nat
  events : List SinkEvent
deriving DecidableEq

/-- The initial worker state: empty buffer, zero bytes, no sink calls. -/
def initialWorkerState : WorkerState := ⟨[], 0, []⟩

/-- Model of `flush_buffer` in `sink_worker.rs`: compose the buffer; send
the payload unless it is empty or the empty JSON array; clear the buffer
and reset the byte count. -/
def flush_buffer (c : ComposerBackend) (t : DocumentTransformer) (st : WorkerState) :
    Except String WorkerState := do
  let payload ← c.compose st.buffer t
  let evs := if payload != "" && payload != "[]" then st.events ++ [SinkEvent.send payload] else st.events
  pure { buffer := [], buffer_bytes := 0, events := evs }

/-- Model of the `Ok(page)` arm of the `SinkWorker` loop: append the page
to the buffer, add its byte length, and flush when
`buffer_bytes + BUFFER_EPSILON_BYTES >= max_request_size_bytes`. -/
def receive_page (maxReq : Nat) (c : ComposerBackend) (t : DocumentTransformer)
    (st : WorkerState) (page : String) : Except String WorkerState :=
  let st1 : WorkerState :=
    { st with buffer := st.buffer ++ [page], buffer_bytes := st.buffer_bytes + page.utf8ByteSize }
  if maxReq ≤ st1.buffer_bytes + BUFFER_EPSILON_BYTES then flush_buffer c t st1 else pure st1

/-- Receive a sequence of pages from the channel, in order. -/
def run_pages (maxReq : Nat) (c : ComposerBackend) (t : DocumentTransformer)
    (st : WorkerState) (pages : List String) : Except String WorkerState :=
  pages.foldlM (receive_page maxReq c t) st

/-- Model of one complete `SinkWorker` run: receive every page the channel
delivers, then, on channel close, flush a non-empty buffer and close the
sink. -/
def sink_worker_run (maxReq : Nat) (c : ComposerBackend) (t : DocumentTransformer)
    (pages : List String) : Except String WorkerState := do
  let st ← run_pages maxReq c t initialWorkerState pages
  let st2 ← if st.buffer.isEmpty then pure st else flush_buffer c t st
  pure { st2 with events := st2.events ++ [SinkEvent.close] }

/-- Total byte size of a list of pages (`String::len` is the UTF-8 byte
length). -/
def sumBytes (pages : List String) : Nat :=
  (pages.map String.utf8ByteSize).sum

/-- Number of `send` events in a trace. -/
def countSends (events : List SinkEvent) : Nat :=
  events.countP (fun e => match e with | .send _ => true | .close => false)

/-! ## Paged line sources -/

/-- Remove every trailing occurrence of a character, the behaviour of
`str::trim_end_matches` with a `char` pattern. -/
def trimTrailing (c : Char) (s : String) : String :=
  String.mk ((s.data.reverse.dropWhile (fun x => x == c)).reverse)

/-- Strip trailing newlines then trailing carriage returns from one raw
line, as `line.trim_end_matches('\n').trim_end_matches('\r')` does. -/
def trimLine (l : String) : String := trimTrailing '\r' (trimTrailing '\n' l)

/-- Append a line to the page under construction with a single newline
separator and no leading or trailing separator. -/
def pushLine (page t : String) : String :=
  if page = "" then t else page ++ "\n" ++ t

/-- Trimmed nonempty lines of a list of raw lines — the lines that
actually enter the page. -/
def nonemptyTrims (raws : List String) : List String :=
  (raws.map trimLine).filter (fun t => t != "")

/-- The accumulation loop shared by `FileSource::next_page` and
`S3RallySource::next_page` (the two loops are line for line identical).
The fuel argument models the `for _ in 0..=max_batch_size_docs` iteration
bound; the list models the remaining raw lines of the buffered reader,
each as `read_line` returns it, terminator included.  After each line the
loop breaks when the raw byte count exceeds `maxB` or the nonempty line
count reaches `maxD`. -/
def next_page_loop (maxB maxD : Nat) : Nat → List String → String → Nat → Nat → String × List String
  | 0, rest, page, _, _ => (page, rest)
  | _ + 1, [], page, _, _ => (page, [])
  | fuel + 1, l :: rest, page, tot, cnt =>
    let tot2 := tot + l.utf8ByteSize
    let trimmed := trimLine l
    let page2 := if trimmed = "" then page else pushLine page trimmed
    let cnt2 := if trimmed = "" then cnt else cnt + 1
    if maxB < tot2 then (page2, rest)
    else if maxD ≤ cnt2 then (page2, rest)
    else next_page_loop maxB maxD fuel rest page2 tot2 cnt2

/-- State of a paged line source: the raw lines remaining in its buffered
reader. -/
structure LineSourceState where
  lines : List String
deriving DecidableEq

/-- Model of `FileSource::next_page`: run the accumulation loop for at
most `maxD + 1` line reads and return the page, or `None` when the page
came out empty. -/
def FileSource.next_page (maxB maxD : Nat) (st : LineSourceState) :
    Option String × LineSourceState :=
  let pr := next_page_loop maxB maxD (maxD + 1) st.lines "" 0 0
  (if pr.1 = "" then none else some pr.1, ⟨pr.2⟩)

/-- Model of `S3RallySource::next_page`, whose loop is identical to the
file source loop (the byte stream comes from the object store GET instead
of a file). -/
def S3RallySource.next_page (maxB maxD : Nat) (st : LineSourceState) :
    Option String × LineSourceState :=
  let pr := next_page_loop maxB maxD (maxD + 1) st.lines "" 0 0
  (if pr.1 = "" then none else some pr.1, ⟨pr.2⟩)

/-- The page yielded once by `InMemorySource`: four documents joined with
newlines. -/
def the_sacred_page : String :=
  "\x7b\"doc\":1\x7d\n\x7b\"doc\":2\x7d\n\x7b\"doc\":3\x7d\n\x7b\"doc\":4\x7d"

/-- State of `InMemorySource`: the `has_yielded` latch. -/
structure InMemorySourceState where
  has_yielded : Bool
deriving DecidableEq

/-- Model of `InMemorySource::next_page`: yield the fixture page once,
then `None` forever. -/
def InMemorySource.next_page (st : InMemorySourceState) :
    Option String × InMemorySourceState :=
  if st.has_yielded then (none, ⟨true⟩) else (some the_sacred_page, ⟨true⟩)

/-- A page as every source produces it: nonempty, with at least one
nonempty line (sources join nonempty lines and never yield an empty
page). -/
def goodPage (p : String) : Prop := p ≠ "" ∧ nonemptyLines p ≠ []

instance (p : String) : Decidable (goodPage p) := by
  unfold goodPage; infer_instance

/-- Join a list of lines with single newline separators and no leading or
trailing separator. -/
def joinNL : List String → String
  | [] => ""
  | [x] => x
  | x :: y :: xs => x ++ "\n" ++ joinNL (y :: xs)


/-! ## Helper lemmas about the SinkWorker state machine -/

theorem except_bind_ok {ε α β : Type} (a : α) (f : α → Except ε β) :
    (Except.ok a >>= f) = f a := rfl

theorem except_bind_error {ε α β : Type} (e : ε) (f : α → Except ε β) :
    ((Except.error e : Except ε α) >>= f) = Except.error e := rfl

theorem except_pure {ε α : Type} (a : α) : (pure a : Except ε α) = Except.ok a := rfl

theorem flush_buffer_ok {c : ComposerBackend} {t : DocumentTransformer} {st st2 : WorkerState}
    (h : flush_buffer c t st = Except.ok st2) :
    ∃ payload, c.compose st.buffer t = Except.ok payload ∧
      st2 = ⟨[], 0, if payload != "" && payload != "[]"
                    then st.events ++ [SinkEvent.send payload] else st.events⟩ := by
  unfold flush_buffer at h
  cases hc : c.compose st.buffer t with
  | error e =>
    rw [hc, except_bind_error] at h
    cases h
  | ok payload =>
    rw [hc, except_bind_ok] at h
    refine ⟨payload, rfl, ?_⟩
    rw [except_pure] at h
    exact (Except.ok.inj h).symm

theorem run_pages_nil {m : Nat} {c : ComposerBackend} {t : DocumentTransformer}
    {st : WorkerState} : run_pages m c t st [] = Except.ok st := rfl

theorem run_pages_cons_ok {m : Nat} {c : ComposerBackend} {t : DocumentTransformer}
    {st s2 : WorkerState} {p : String} {ps : List String}
    (h : receive_page m c t st p = Except.ok s2) :
    run_pages m c t st (p :: ps) = run_pages m c t s2 ps := by
  unfold run_pages
  rw [List.foldlM_cons, h]
  rfl

theorem run_pages_cons_error {m : Nat} {c : ComposerBackend} {t : DocumentTransformer}
    {st : WorkerState} {p : String} {ps : List String} {e : String}
    (h : receive_page m c t st p = Except.error e) :
    run_pages m c t st (p :: ps) = Except.error e := by
  unfold run_pages
  rw [List.foldlM_cons, h]
  rfl

theorem run_pages_append {m : Nat} {c : ComposerBackend} {t : DocumentTransformer} :
    ∀ (l1 l2 : List String) (st : WorkerState),
      run_pages m c t st (l1 ++ l2) =
        match run_pages m c t st l1 with
        | .ok s => run_pages m c t s l2
        | .error e => .error e := by
  intro l1
  induction l1 with
  | nil => intro l2 st; rw [List.nil_append, run_pages_nil]
  | cons p ps ih =>
    intro l2 st
    rw [List.cons_append]
    cases hrecv : receive_page m c t st p with
    | error e => rw [run_pages_cons_error hrecv, run_pages_cons_error hrecv]
    | ok s2 => rw [run_pages_cons_ok hrecv, run_pages_cons_ok hrecv, ih l2 s2]

theorem sumBytes_nil : sumBytes [] = 0 := rfl

theorem sumBytes_cons (p : String) (ps : List String) :
    sumBytes (p :: ps) = p.utf8ByteSize + sumBytes ps := by
  simp [sumBytes]

theorem sumBytes_append (l1 l2 : List String) :
    sumBytes (l1 ++ l2) = sumBytes l1 + sumBytes l2 := by
  simp [sumBytes, List.sum_append]

theorem utf8ByteSize_pos {s : String} (h : s ≠ "") : 0 < s.utf8ByteSize := by
  cases s with
  | mk data =>
    cases data with
    | nil => simp at h
    | cons ch cs =>
      rw [String.utf8ByteSize_mk, String.utf8Len_cons]
      have := Char.utf8Size_pos ch
      omega

theorem receive_page_flush {m : Nat} {c : ComposerBackend} {t : DocumentTransformer}
    {st : WorkerState} {p : String}
    (hcond : m ≤ st.buffer_bytes + p.utf8ByteSize + BUFFER_EPSILON_BYTES) :
    receive_page m c t st p =
      flush_buffer c t ⟨st.buffer ++ [p], st.buffer_bytes + p.utf8ByteSize, st.events⟩ := by
  unfold receive_page
  simp only [hcond, if_true]

theorem receive_page_buffered {m : Nat} {c : ComposerBackend} {t : DocumentTransformer}
    {st : WorkerState} {p : String}
    (hcond : ¬ m ≤ st.buffer_bytes + p.utf8ByteSize + BUFFER_EPSILON_BYTES) :
    receive_page m c t st p =
      Except.ok ⟨st.buffer ++ [p], st.buffer_bytes + p.utf8ByteSize, st.events⟩ := by
  unfold receive_page
  simp only [hcond, if_false]
  rfl

theorem run_pages_no_flush {m : Nat} {c : ComposerBackend} {t : DocumentTransformer} :
    ∀ (ps : List String) (st : WorkerState),
      st.buffer_bytes + sumBytes ps + BUFFER_EPSILON_BYTES < m →
      run_pages m c t st ps =
        Except.ok ⟨st.buffer ++ ps, st.buffer_bytes + sumBytes ps, st.events⟩ := by
  intro ps
  induction ps with
  | nil =>
    intro st hlt
    rw [run_pages_nil, sumBytes_nil]
    simp
  | cons p ps ih =>
    intro st hlt
    rw [sumBytes_cons] at hlt
    have hcond : ¬ (m ≤ st.buffer_bytes + p.utf8ByteSize + BUFFER_EPSILON_BYTES) := by omega
    rw [run_pages_cons_ok (receive_page_buffered hcond)]
    have h2 := ih ⟨st.buffer ++ [p], st.buffer_bytes + p.utf8ByteSize, st.events⟩
      (by show st.buffer_bytes + p.utf8ByteSize + sumBytes ps + BUFFER_EPSILON_BYTES < m; omega)
    rw [h2]
    simp only [List.append_assoc, List.singleton_append, Nat.add_assoc, sumBytes_cons]

theorem run_pages_no_close {m : Nat} {c : ComposerBackend} {t : DocumentTransformer} :
    ∀ (ps : List String) (st st2 : WorkerState),
      run_pages m c t st ps = Except.ok st2 →
      SinkEvent.close ∉ st.events → SinkEvent.close ∉ st2.events := by
  intro ps
  induction ps with
  | nil =>
    intro st st2 h hn
    rw [run_pages_nil] at h
    cases h
    exact hn
  | cons p ps ih =>
    intro st st2 h hn
    cases hrecv : receive_page m c t st p with
    | error e => rw [run_pages_cons_error hrecv] at h; cases h
    | ok s2 =>
      rw [run_pages_cons_ok hrecv] at h
      refine ih s2 st2 h ?_
      by_cases hcond : m ≤ st.buffer_bytes + p.utf8ByteSize + BUFFER_EPSILON_BYTES
      · rw [receive_page_flush hcond] at hrecv
        obtain ⟨payload, _, hst⟩ := flush_buffer_ok hrecv
        subst hst
        intro hmem
        simp only at hmem
        by_cases hsend : (payload != "" && payload != "[]") = true
        · rw [if_pos hsend] at hmem
          rcases List.mem_append.mp hmem with h1 | h1
          · exact hn h1
          · simp at h1
        · rw [if_neg hsend] at hmem
          exact hn hmem
      · rw [receive_page_buffered hcond] at hrecv
        cases hrecv
        exact hn

theorem run_pages_bytes_inv {m : Nat} {c : ComposerBackend} {t : DocumentTransformer} :
    ∀ (ps : List String) (st st2 : WorkerState),
      run_pages m c t st ps = Except.ok st2 →
      st.buffer_bytes = sumBytes st.buffer →
      st2.buffer_bytes = sumBytes st2.buffer := by
  intro ps
  induction ps with
  | nil =>
    intro st st2 h hi
    rw [run_pages_nil] at h
    cases h
    exact hi
  | cons p ps ih =>
    intro st st2 h hi
    cases hrecv : receive_page m c t st p with
    | error e => rw [run_pages_cons_error hrecv] at h; cases h
    | ok s2 =>
      rw [run_pages_cons_ok hrecv] at h
      refine ih s2 st2 h ?_
      by_cases hcond : m ≤ st.buffer_bytes + p.utf8ByteSize + BUFFER_EPSILON_BYTES
      · rw [receive_page_flush hcond] at hrecv
        obtain ⟨payload, _, hst⟩ := flush_buffer_ok hrecv
        subst hst
        rfl
      · rw [receive_page_buffered hcond] at hrecv
        cases hrecv
        show st.buffer_bytes + p.utf8ByteSize = sumBytes (st.buffer ++ [p])
        rw [sumBytes_append, hi]
        simp [sumBytes]

/--
C8.  The startup resolver `DocumentTransformer::from_configs`, corrected:
it maps (File, BulkHttp) to RallyToBulk and (File, File),
(InMemory, InMemory), (ClusterScroll, File) to Passthrough, and every
other pair — including (ObjectStore, BulkHttp) — falls to the catch-all
arm that panics at startup (`none` here); it never silently falls back.
-/
theorem from_configs_resolution_table :
    DocumentTransformer.from_configs .file .elasticsearch = some .rallyS3ToEs ∧
    DocumentTransformer.from_configs .file .file = some .passthrough ∧
    DocumentTransformer.from_configs .inMemory .inMemory = some .passthrough ∧
    DocumentTransformer.from_configs .elasticsearch .file = some .passthrough ∧
    DocumentTransformer.from_configs .s3Rally .elasticsearch = none ∧
    DocumentTransformer.from_configs .s3Rally .file = none ∧
    DocumentTransformer.from_configs .s3Rally .inMemory = none ∧
    DocumentTransformer.from_configs .file .inMemory = none ∧
    DocumentTransformer.from_configs .elasticsearch .elasticsearch = none ∧
    DocumentTransformer.from_configs .elasticsearch .inMemory = none ∧
    DocumentTransformer.from_configs .inMemory .elasticsearch = none ∧
    DocumentTransformer.from_configs .inMemory .file = none := by
  decide

/--
C8 counterexample: the claim maps (ObjectStore, BulkHttp) — the
`S3Rally` source paired with the `Elasticsearch` sink — to the RallyToBulk
transform, but the resolver has no arm for that pair and hits the fatal
catch-all instead.
-/
theorem from_configs_objectstore_bulkhttp_cex :
    DocumentTransformer.from_configs .s3Rally .elasticsearch = none ∧
    DocumentTransformer.from_configs .s3Rally .elasticsearch ≠
      some DocumentTransformer.rallyS3ToEs := by
  decide

/--
C9, corrected: the InMemory source latches (`has_yielded` is true after
any call, and a call in the latched state returns `Ok(None)` and stays
latched), and the File and ObjectStore sources return `Ok(None)` on every
call once their reader has no lines left, which is the state reached at
true end-of-stream.  (A `None` return itself does not latch those two
sources: see the counterexample.)
-/
theorem sources_none_at_eof :
    (∀ st, (InMemorySource.next_page st).2 = ⟨true⟩) ∧
    InMemorySource.next_page ⟨true⟩ = (none, ⟨true⟩) ∧
    (∀ maxB maxD, FileSource.next_page maxB maxD ⟨[]⟩ = (none, ⟨[]⟩)) ∧
    (∀ maxB maxD, S3RallySource.next_page maxB maxD ⟨[]⟩ = (none, ⟨[]⟩)) := by
  refine ⟨?_, rfl, ?_, ?_⟩
  · intro st
    cases st with
    | mk b => cases b <;> rfl
  · intro maxB maxD
    rfl
  · intro maxB maxD
    rfl

/--
C9 counterexample: a File source that has just reported end-of-stream
(`None`) can yield data on the very next call.  With
`max_batch_size_bytes = 2` and three blank lines followed by `x`, the
first call returns `None` (blank bytes exceed the cap) while `x` is still
unread, and the second call returns the page `x`.
-/
theorem sources_none_latch_cex :
    FileSource.next_page 2 10 ⟨["\n", "\n", "\n", "x\n"]⟩ = (none, ⟨["x\n"]⟩) ∧
    FileSource.next_page 2 10 ⟨["x\n"]⟩ = (some "x", ⟨[]⟩) :=
  ⟨rfl, rfl⟩

/--
C1, corrected: in the SinkWorker loop the flush check runs after the page
is appended: with `EPSILON = BUFFER_EPSILON_BYTES = 65536`, a receive
flushes (clearing the buffer) exactly when
`buffer_bytes + EPSILON >= max_request_size_bytes` holds after appending,
and otherwise only appends.  Provided
`max_request_size_bytes > EPSILON`, every state in which the worker
awaits the next page satisfies
`buffer_bytes + EPSILON < max_request_size_bytes`.  (Without that
proviso the awaiting invariant fails: see the counterexample.)
-/
theorem sink_worker_flush_discipline (m : Nat) (c : ComposerBackend) (t : DocumentTransformer)
    (h : BUFFER_EPSILON_BYTES < m) :
    BUFFER_EPSILON_BYTES = 65536 ∧
    (∀ (st st2 : WorkerState) (page : String),
       receive_page m c t st page = Except.ok st2 →
       ((m ≤ st.buffer_bytes + page.utf8ByteSize + BUFFER_EPSILON_BYTES →
           st2.buffer = [] ∧ st2.buffer_bytes = 0) ∧
        (st.buffer_bytes + page.utf8ByteSize + BUFFER_EPSILON_BYTES < m →
           st2 = ⟨st.buffer ++ [page], st.buffer_bytes + page.utf8ByteSize, st.events⟩))) ∧
    (∀ (pages : List String) (st2 : WorkerState),
       run_pages m c t initialWorkerState pages = Except.ok st2 →
       st2.buffer_bytes + BUFFER_EPSILON_BYTES < m) := by
  refine ⟨rfl, ?_, ?_⟩
  · intro st st2 page hrecv
    constructor
    · intro hcond
      rw [receive_page_flush hcond] at hrecv
      obtain ⟨payload, _, hst⟩ := flush_buffer_ok hrecv
      subst hst
      exact ⟨rfl, rfl⟩
    · intro hcond
      rw [receive_page_buffered (by omega)] at hrecv
      cases hrecv
      rfl
  · have inv : ∀ (pages : List String) (st st2 : WorkerState),
        st.buffer_bytes + BUFFER_EPSILON_BYTES < m →
        run_pages m c t st pages = Except.ok st2 →
        st2.buffer_bytes + BUFFER_EPSILON_BYTES < m := by
      intro pages
      induction pages with
      | nil =>
        intro st st2 hlt hr
        rw [run_pages_nil] at hr
        cases hr
        exact hlt
      | cons p ps ih =>
        intro st st2 hlt hr
        cases hrecv : receive_page m c t st p with
        | error e => rw [run_pages_cons_error hrecv] at hr; cases hr
        | ok s2 =>
          rw [run_pages_cons_ok hrecv] at hr
          refine ih s2 st2 ?_ hr
          by_cases hcond : m ≤ st.buffer_bytes + p.utf8ByteSize + BUFFER_EPSILON_BYTES
          · rw [receive_page_flush hcond] at hrecv
            obtain ⟨payload, _, hst⟩ := flush_buffer_ok hrecv
            subst hst
            show 0 + BUFFER_EPSILON_BYTES < m
            omega
          · rw [receive_page_buffered hcond] at hrecv
            cases hrecv
            show st.buffer_bytes + p.utf8ByteSize + BUFFER_EPSILON_BYTES < m
            omega
    intro pages st2 hr
    exact inv pages initialWorkerState st2 (by show 0 + BUFFER_EPSILON_BYTES < m; omega) hr

/--
C1 witness: the flush discipline theorem applied at
`max_request_size_bytes = 70000` with the Passthrough and NDJSON pipeline
on a one page run of one byte.
-/
theorem sink_worker_flush_discipline_witness :
    BUFFER_EPSILON_BYTES < 70000 ∧
    WorkerState.buffer_bytes ⟨["a"], 1, []⟩ + BUFFER_EPSILON_BYTES < 70000 :=
  ⟨by decide,
   (sink_worker_flush_discipline 70000 .ndjson .passthrough (by decide)).2.2
     ["a"] ⟨["a"], 1, []⟩ rfl⟩

/--
C1 counterexample: with `max_request_size_bytes = 1000` (below EPSILON)
the worker receives a one byte page, flushes it, and then awaits the next
page in a state where `buffer_bytes + EPSILON < max_request_size_bytes`
is false — the claimed awaiting invariant does not hold as stated.
-/
theorem sink_worker_await_invariant_cex :
    receive_page 1000 .ndjson .passthrough initialWorkerState "a" =
      Except.ok ⟨[], 0, [SinkEvent.send "a\n"]⟩ ∧
    ¬ (WorkerState.buffer_bytes ⟨[], 0, [SinkEvent.send "a\n"]⟩ + BUFFER_EPSILON_BYTES < 1000) :=
  ⟨rfl, by decide⟩

/--
C3.  On channel close the SinkWorker flushes a non-empty buffer before
closing the sink: every successful run ends with an empty buffer and a
zero byte count, and its event trace is some sends followed by exactly
one `close`, which is the last event — the sink is never closed while
unflushed buffered pages remain.
-/
theorem sink_close_after_final_flush (m : Nat) (c : ComposerBackend) (t : DocumentTransformer)
    (pages : List String) (st : WorkerState)
    (h : sink_worker_run m c t pages = Except.ok st) :
    st.buffer = [] ∧ st.buffer_bytes = 0 ∧
    ∃ es, st.events = es ++ [SinkEvent.close] ∧ SinkEvent.close ∉ es := by
  unfold sink_worker_run at h
  cases h1 : run_pages m c t initialWorkerState pages with
  | error e => rw [h1, except_bind_error] at h; cases h
  | ok st1 =>
    rw [h1, except_bind_ok] at h
    have hnoclose : SinkEvent.close ∉ st1.events :=
      run_pages_no_close pages initialWorkerState st1 h1 (by simp [initialWorkerState])
    have hbytes : st1.buffer_bytes = sumBytes st1.buffer :=
      run_pages_bytes_inv pages initialWorkerState st1 h1 rfl
    by_cases hemp : st1.buffer.isEmpty
    · rw [if_pos hemp, except_pure, except_bind_ok] at h
      simp only [except_pure] at h
      cases h
      have hb : st1.buffer = [] := by
        cases hb2 : st1.buffer with
        | nil => rfl
        | cons x xs => rw [hb2] at hemp; simp [List.isEmpty] at hemp
      refine ⟨hb, ?_, st1.events, rfl, hnoclose⟩
      rw [hbytes, hb]
      rfl
    · rw [if_neg hemp] at h
      cases h2 : flush_buffer c t st1 with
      | error e => rw [h2, except_bind_error] at h; cases h
      | ok st2 =>
        rw [h2, except_bind_ok] at h
        simp only [except_pure] at h
        cases h
        obtain ⟨payload, _, hst2⟩ := flush_buffer_ok h2
        subst hst2
        refine ⟨rfl, rfl, ?_⟩
        by_cases hsend : (payload != "" && payload != "[]") = true
        · refine ⟨st1.events ++ [SinkEvent.send payload], by simp [hsend], ?_⟩
          intro hmem
          rcases List.mem_append.mp hmem with h3 | h3
          · exact hnoclose h3
          · simp at h3
        · exact ⟨st1.events, by simp [hsend], hnoclose⟩

/--
C3 witness: a concrete successful run of one page through the
Passthrough and NDJSON pipeline, with the theorem instantiated at its
final state.
-/
theorem sink_close_after_final_flush_witness :
    WorkerState.buffer ⟨[], 0, [SinkEvent.send "a\n", SinkEvent.close]⟩ = [] ∧
    WorkerState.buffer_bytes ⟨[], 0, [SinkEvent.send "a\n", SinkEvent.close]⟩ = 0 ∧
    ∃ es, WorkerState.events ⟨[], 0, [SinkEvent.send "a\n", SinkEvent.close]⟩ =
        es ++ [SinkEvent.close] ∧ SinkEvent.close ∉ es :=
  sink_close_after_final_flush 70000 .ndjson .passthrough ["a"]
    ⟨[], 0, [SinkEvent.send "a\n", SinkEvent.close]⟩ rfl

/-! ## Helper lemmas for the exactly-one-send property -/

theorem mapM_ok_facts {A B : Type} (f : A → Except String B) :
    ∀ (ls : List A) (bs : List B), ls.mapM f = Except.ok bs →
      bs.length = ls.length ∧ ∀ b ∈ bs, ∃ a, a ∈ ls ∧ f a = Except.ok b := by
  intro ls
  induction ls with
  | nil =>
    intro bs h
    rw [List.mapM_nil, except_pure] at h
    cases h
    exact ⟨rfl, by simp⟩
  | cons a as ih =>
    intro bs h
    rw [List.mapM_cons] at h
    cases hfa : f a with
    | error e => rw [hfa, except_bind_error] at h; cases h
    | ok b =>
      rw [hfa, except_bind_ok] at h
      cases hrest : as.mapM f with
      | error e => rw [hrest, except_bind_error] at h; cases h
      | ok bs2 =>
        rw [hrest, except_bind_ok, except_pure] at h
        cases h
        obtain ⟨hlen, hmem⟩ := ih bs2 hrest
        refine ⟨by simp [hlen], ?_⟩
        intro x hx
        rcases List.mem_cons.mp hx with rfl | hx
        · exact ⟨a, List.mem_cons_self a as, hfa⟩
        · obtain ⟨a2, ha2, hfa2⟩ := hmem x hx
          exact ⟨a2, List.mem_cons_of_mem a ha2, hfa2⟩

theorem rally_line_ok_ne {l item : String}
    (h : rally_s3_to_es.transform l = Except.ok item) : item ≠ "" := by
  unfold rally_s3_to_es.transform at h
  cases hp : parseJson l with
  | none => rw [hp] at h; cases h
  | some doc =>
    rw [hp] at h
    cases h
    intro he
    have hd := congrArg String.data he
    rw [String.data_append, String.data_append] at hd
    simp at hd

theorem transform_ok_items {t : DocumentTransformer} {p : String} {items : List String}
    (hgood : goodPage p) (h : t.transform p = Except.ok items) :
    items ≠ [] ∧ ∀ i ∈ items, i ≠ "" := by
  cases t with
  | passthrough =>
    unfold DocumentTransformer.transform passthrough_transform at h
    cases h
    refine ⟨by simp, ?_⟩
    intro i hi
    rw [List.mem_singleton] at hi
    rw [hi]
    exact hgood.1
  | rallyS3ToEs =>
    unfold DocumentTransformer.transform rally_page_transform at h
    obtain ⟨hlen, hmem⟩ := mapM_ok_facts _ (nonemptyLines p) items h
    constructor
    · intro hnil
      rw [hnil] at hlen
      exact hgood.2 (List.length_eq_zero.mp hlen.symm)
    · intro i hi
      obtain ⟨l, _, hfl⟩ := hmem i hi
      cases htr : rally_s3_to_es.transform l with
      | ok item =>
        simp only [htr] at hfl
        cases hfl
        exact rally_line_ok_ne htr
      | error e => simp only [htr] at hfl; cases hfl

theorem joinCommaSep_data_cons (i : String) (is : List String) :
    ∃ tl, (joinCommaSep (i :: is)).data = i.data ++ tl := by
  cases is with
  | nil => exact ⟨[], by simp [joinCommaSep]⟩
  | cons y ys =>
    refine ⟨[','] ++ (joinCommaSep (y :: ys)).data, ?_⟩
    show ((i ++ ",") ++ joinCommaSep (y :: ys)).data = _
    rw [String.data_append, String.data_append, List.append_assoc]

theorem compose_ok_payload {c : ComposerBackend} {t : DocumentTransformer}
    {pages : List String} {payload : String}
    (hne : pages ≠ []) (hg : ∀ p ∈ pages, goodPage p)
    (h : c.compose pages t = Except.ok payload) :
    payload ≠ "" ∧ payload ≠ "[]" := by
  cases c with
  | ndjson =>
    simp only [ComposerBackend.compose, NdjsonComposer.compose] at h
    cases hm : pages.mapM t.transform with
    | error e => rw [hm, except_bind_error] at h; cases h
    | ok itemLists =>
      rw [hm, except_bind_ok, except_pure] at h
      obtain ⟨hlen, hmem⟩ := mapM_ok_facts _ pages itemLists hm
      cases hil : itemLists with
      | nil =>
        rw [hil] at hlen
        exact absurd (List.length_eq_zero.mp hlen.symm) hne
      | cons L0 rest =>
        obtain ⟨p0, hp0, htr⟩ := hmem L0 (by rw [hil]; exact List.mem_cons_self L0 rest)
        obtain ⟨hL0ne, _⟩ := transform_ok_items (hg p0 hp0) htr
        cases hL00 : L0 with
        | nil => exact absurd hL00 hL0ne
        | cons i is0 =>
          have hflat : itemLists.flatten = i :: (is0 ++ rest.flatten) := by
            rw [hil, hL00]; simp
          have hmemnl : '\n' ∈ (joinAll (itemLists.flatten.map (fun it => it ++ "\n"))).data := by
            rw [hflat]
            show '\n' ∈ ((i ++ "\n") ++ joinAll ((is0 ++ rest.flatten).map (fun it => it ++ "\n"))).data
            rw [String.data_append, String.data_append]
            refine List.mem_append.mpr (Or.inl ?_)
            refine List.mem_append.mpr (Or.inr ?_)
            simp
          rw [Except.ok.inj h] at hmemnl
          constructor
          · intro he; rw [he] at hmemnl; exact absurd hmemnl (by decide)
          · intro he; rw [he] at hmemnl; exact absurd hmemnl (by decide)
  | jsonArray =>
    simp only [ComposerBackend.compose, JsonArrayComposer.compose] at h
    cases hm : pages.mapM t.transform with
    | error e => rw [hm, except_bind_error] at h; cases h
    | ok itemLists =>
      rw [hm, except_bind_ok, except_pure] at h
      obtain ⟨hlen, hmem⟩ := mapM_ok_facts _ pages itemLists hm
      cases hil : itemLists with
      | nil =>
        rw [hil] at hlen
        exact absurd (List.length_eq_zero.mp hlen.symm) hne
      | cons L0 rest =>
        obtain ⟨p0, hp0, htr⟩ := hmem L0 (by rw [hil]; exact List.mem_cons_self L0 rest)
        obtain ⟨hL0ne, hL0items⟩ := transform_ok_items (hg p0 hp0) htr
        cases hL00 : L0 with
        | nil => exact absurd hL00 hL0ne
        | cons i is0 =>
          have hine : i ≠ "" := hL0items i (by rw [hL00]; exact List.mem_cons_self i is0)
          have hipos : 0 < i.data.length :=
            List.length_pos.mpr (fun hd => hine (String.ext hd))
          have hflat : itemLists.flatten = i :: (is0 ++ rest.flatten) := by
            rw [hil, hL00]; simp
          obtain ⟨tl, htl⟩ := joinCommaSep_data_cons i (is0 ++ rest.flatten)
          have hplen : 3 ≤ payload.data.length := by
            rw [← Except.ok.inj h, hflat]
            show 3 ≤ (("[" ++ joinCommaSep (i :: (is0 ++ rest.flatten))) ++ "]").data.length
            rw [String.data_append, String.data_append, htl]
            simp only [List.length_append]
            have h1 : (['['] : List Char).length = 1 := rfl
            have h2 : ([']'] : List Char).length = 1 := rfl
            omega
          constructor
          · intro he; rw [he] at hplen; exact absurd hplen (by decide)
          · intro he; rw [he] at hplen; exact absurd hplen (by decide)

theorem flush_buffer_eq {c : ComposerBackend} {t : DocumentTransformer}
    (st : WorkerState) {payload : String}
    (h : c.compose st.buffer t = Except.ok payload) :
    flush_buffer c t st =
      Except.ok ⟨[], 0, if payload != "" && payload != "[]"
                        then st.events ++ [SinkEvent.send payload] else st.events⟩ := by
  unfold flush_buffer
  rw [h, except_bind_ok, except_pure]

theorem flush_buffer_eq_error {c : ComposerBackend} {t : DocumentTransformer}
    (st : WorkerState) {e : String}
    (h : c.compose st.buffer t = Except.error e) :
    flush_buffer c t st = Except.error e := by
  unfold flush_buffer
  rw [h, except_bind_error]

theorem sink_worker_run_of_flush {m : Nat} {c : ComposerBackend} {t : DocumentTransformer}
    {pages : List String} {st1 st2 : WorkerState}
    (h1 : run_pages m c t initialWorkerState pages = Except.ok st1)
    (hne : st1.buffer.isEmpty = false)
    (h2 : flush_buffer c t st1 = Except.ok st2) :
    sink_worker_run m c t pages =
      Except.ok ⟨st2.buffer, st2.buffer_bytes, st2.events ++ [SinkEvent.close]⟩ := by
  unfold sink_worker_run
  rw [h1, except_bind_ok, hne]
  simp only [Bool.false_eq_true, if_false]
  rw [h2, except_bind_ok, except_pure]

theorem sink_worker_run_of_skip {m : Nat} {c : ComposerBackend} {t : DocumentTransformer}
    {pages : List String} {st1 : WorkerState}
    (h1 : run_pages m c t initialWorkerState pages = Except.ok st1)
    (he : st1.buffer.isEmpty = true) :
    sink_worker_run m c t pages =
      Except.ok ⟨st1.buffer, st1.buffer_bytes, st1.events ++ [SinkEvent.close]⟩ := by
  unfold sink_worker_run
  rw [h1, except_bind_ok, he]
  simp only [if_true]
  rw [except_pure, except_bind_ok, except_pure]

theorem sink_worker_run_error_of_run {m : Nat} {c : ComposerBackend} {t : DocumentTransformer}
    {pages : List String} {e : String}
    (h : run_pages m c t initialWorkerState pages = Except.error e) :
    sink_worker_run m c t pages = Except.error e := by
  unfold sink_worker_run
  rw [h, except_bind_error]

theorem sink_worker_run_error_of_flush {m : Nat} {c : ComposerBackend} {t : DocumentTransformer}
    {pages : List String} {st1 : WorkerState} {e : String}
    (h1 : run_pages m c t initialWorkerState pages = Except.ok st1)
    (hne : st1.buffer.isEmpty = false)
    (h2 : flush_buffer c t st1 = Except.error e) :
    sink_worker_run m c t pages = Except.error e := by
  unfold sink_worker_run
  rw [h1, except_bind_ok, hne]
  simp only [Bool.false_eq_true, if_false]
  rw [h2, except_bind_error]

/--
C2, corrected: in every successful run in which the worker receives at
least one page (each page nonempty with nonempty lines, as sources
produce them) and the total source bytes are at most
`max_request_size_bytes - EPSILON`, exactly one `Sink::send` occurs over
the whole run, followed only by the close.  (As stated the claim fails
for a run that receives no pages: see the counterexample.  In the
boundary case `total = max_request_size_bytes - EPSILON` the single send
happens at the threshold flush rather than at the final flush.)
-/
theorem exactly_one_send (m : Nat) (c : ComposerBackend) (t : DocumentTransformer)
    (pages : List String) (st : WorkerState)
    (hrun : sink_worker_run m c t pages = Except.ok st)
    (hne : pages ≠ [])
    (hg : ∀ p ∈ pages, goodPage p)
    (hsize : sumBytes pages + BUFFER_EPSILON_BYTES ≤ m) :
    ∃ payload, st.events = [SinkEvent.send payload, SinkEvent.close] ∧
      countSends st.events = 1 := by
  rcases Nat.lt_or_ge (sumBytes pages + BUFFER_EPSILON_BYTES) m with hlt | hge
  · -- strict case: no threshold flush, one send at the final flush
    obtain ⟨p0, ps, rfl⟩ := List.exists_cons_of_ne_nil hne
    have h1 := run_pages_no_flush (m := m) (c := c) (t := t) (p0 :: ps) initialWorkerState
      (by show 0 + sumBytes (p0 :: ps) + BUFFER_EPSILON_BYTES < m; omega)
    have hne2 : (WorkerState.buffer ⟨initialWorkerState.buffer ++ (p0 :: ps),
        initialWorkerState.buffer_bytes + sumBytes (p0 :: ps),
        initialWorkerState.events⟩).isEmpty = false := rfl
    cases hcomp : c.compose (p0 :: ps) t with
    | error e =>
      have h2 := flush_buffer_eq_error (c := c) (t := t)
        ⟨initialWorkerState.buffer ++ (p0 :: ps),
         initialWorkerState.buffer_bytes + sumBytes (p0 :: ps),
         initialWorkerState.events⟩ hcomp
      rw [sink_worker_run_error_of_flush h1 hne2 h2] at hrun
      cases hrun
    | ok payload =>
      obtain ⟨hp1, hp2⟩ := compose_ok_payload hne hg hcomp
      have hsend : (payload != "" && payload != "[]") = true := by
        simp [hp1, hp2]
      have h2 := flush_buffer_eq (c := c) (t := t)
        ⟨initialWorkerState.buffer ++ (p0 :: ps),
         initialWorkerState.buffer_bytes + sumBytes (p0 :: ps),
         initialWorkerState.events⟩ hcomp
      rw [if_pos hsend] at h2
      rw [sink_worker_run_of_flush h1 hne2 h2] at hrun
      cases hrun
      exact ⟨payload, rfl, rfl⟩
  · -- boundary case: the last page triggers the threshold flush
    have heq : sumBytes pages + BUFFER_EPSILON_BYTES = m := Nat.le_antisymm hsize hge
    rcases List.eq_nil_or_concat pages with hnil | ⟨L, q, hLq⟩
    · exact absurd hnil hne
    · rw [List.concat_eq_append] at hLq
      subst hLq
      have hq : goodPage q := hg q (List.mem_append.mpr (Or.inr (List.mem_singleton.mpr rfl)))
      have hqpos : 0 < q.utf8ByteSize := utf8ByteSize_pos hq.1
      rw [sumBytes_append] at heq
      have hsumq : sumBytes [q] = q.utf8ByteSize := by simp [sumBytes]
      rw [hsumq] at heq
      have h1 := run_pages_no_flush (m := m) (c := c) (t := t) L initialWorkerState
        (by show 0 + sumBytes L + BUFFER_EPSILON_BYTES < m; omega)
      have hcond : m ≤ (WorkerState.buffer_bytes ⟨initialWorkerState.buffer ++ L,
          initialWorkerState.buffer_bytes + sumBytes L, initialWorkerState.events⟩)
          + q.utf8ByteSize + BUFFER_EPSILON_BYTES := by
        show m ≤ 0 + sumBytes L + q.utf8ByteSize + BUFFER_EPSILON_BYTES
        omega
      cases hcomp : c.compose (L ++ [q]) t with
      | error e =>
        have h2 := flush_buffer_eq_error (c := c) (t := t)
          ⟨(initialWorkerState.buffer ++ L) ++ [q],
           (initialWorkerState.buffer_bytes + sumBytes L) + q.utf8ByteSize,
           initialWorkerState.events⟩
          (by show c.compose ((initialWorkerState.buffer ++ L) ++ [q]) t = Except.error e
              rw [List.append_assoc]
              exact hcomp)
        have hrecv : receive_page m c t ⟨initialWorkerState.buffer ++ L,
            initialWorkerState.buffer_bytes + sumBytes L, initialWorkerState.events⟩ q =
            Except.error e := by
          rw [receive_page_flush hcond]
          exact h2
        have hrp : run_pages m c t initialWorkerState (L ++ [q]) = Except.error e := by
          rw [run_pages_append, h1]
          show run_pages m c t _ [q] = Except.error e
          rw [run_pages_cons_error hrecv]
        rw [sink_worker_run_error_of_run hrp] at hrun
        cases hrun
      | ok payload =>
        obtain ⟨hp1, hp2⟩ := compose_ok_payload hne hg hcomp
        have hsend : (payload != "" && payload != "[]") = true := by
          simp [hp1, hp2]
        have h2 := flush_buffer_eq (c := c) (t := t)
          ⟨(initialWorkerState.buffer ++ L) ++ [q],
           (initialWorkerState.buffer_bytes + sumBytes L) + q.utf8ByteSize,
           initialWorkerState.events⟩
          (by show c.compose ((initialWorkerState.buffer ++ L) ++ [q]) t = Except.ok payload
              rw [List.append_assoc]
              exact hcomp)
        rw [if_pos hsend] at h2
        have hrecv : receive_page m c t ⟨initialWorkerState.buffer ++ L,
            initialWorkerState.buffer_bytes + sumBytes L, initialWorkerState.events⟩ q =
            Except.ok ⟨[], 0, initialWorkerState.events ++ [SinkEvent.send payload]⟩ := by
          rw [receive_page_flush hcond]
          exact h2
        have hrp : run_pages m c t initialWorkerState (L ++ [q]) =
            Except.ok ⟨[], 0, initialWorkerState.events ++ [SinkEvent.send payload]⟩ := by
          rw [run_pages_append, h1]
          show run_pages m c t _ [q] = _
          rw [run_pages_cons_ok hrecv, run_pages_nil]
        rw [sink_worker_run_of_skip hrp rfl] at hrun
        cases hrun
        exact ⟨payload, rfl, rfl⟩

/--
C2 witness: a one page run through the Passthrough and NDJSON pipeline
under the default 10 MiB request size performs exactly one send.
-/
theorem exactly_one_send_witness :
    ∃ payload, [SinkEvent.send "a\n", SinkEvent.close] =
        [SinkEvent.send payload, SinkEvent.close] ∧
      countSends [SinkEvent.send "a\n", SinkEvent.close] = 1 :=
  exactly_one_send 10485760 .ndjson .passthrough ["a"]
    ⟨[], 0, [SinkEvent.send "a\n", SinkEvent.close]⟩ rfl (by decide) (by decide) (by decide)

/--
C2 counterexample: a run that receives no pages has total source bytes
0 ≤ max_request_size_bytes − EPSILON, yet performs zero sends, not
exactly one — so the claim fails for empty runs as stated.
-/
theorem exactly_one_send_cex :
    sink_worker_run 10485760 .ndjson .passthrough [] =
      Except.ok ⟨[], 0, [SinkEvent.close]⟩ ∧
    sumBytes [] + BUFFER_EPSILON_BYTES ≤ 10485760 ∧
    countSends [SinkEvent.close] = 0 :=
  ⟨rfl, by decide, rfl⟩

/-! ## Helper lemmas for the paged line readers -/

theorem next_page_loop_zero (maxB maxD : Nat) (lines : List String) (page : String)
    (tot cnt : Nat) : next_page_loop maxB maxD 0 lines page tot cnt = (page, lines) := rfl

theorem next_page_loop_eof (maxB maxD fuel : Nat) (page : String) (tot cnt : Nat) :
    next_page_loop maxB maxD (fuel + 1) [] page tot cnt = (page, []) := rfl

theorem next_page_loop_cons (maxB maxD fuel : Nat) (l : String) (rest : List String)
    (page : String) (tot cnt : Nat) :
    next_page_loop maxB maxD (fuel + 1) (l :: rest) page tot cnt =
      if maxB < tot + l.utf8ByteSize then
        (if trimLine l = "" then page else pushLine page (trimLine l), rest)
      else if maxD ≤ (if trimLine l = "" then cnt else cnt + 1) then
        (if trimLine l = "" then page else pushLine page (trimLine l), rest)
      else next_page_loop maxB maxD fuel rest
        (if trimLine l = "" then page else pushLine page (trimLine l))
        (tot + l.utf8ByteSize) (if trimLine l = "" then cnt else cnt + 1) := rfl

theorem nonemptyTrims_nil : nonemptyTrims [] = [] := rfl

theorem nonemptyTrims_cons (l : String) (ls : List String) :
    nonemptyTrims (l :: ls) =
      if trimLine l = "" then nonemptyTrims ls else trimLine l :: nonemptyTrims ls := by
  by_cases h : trimLine l = "" <;> simp [nonemptyTrims, h]

theorem mem_nonemptyTrims {x : String} {raws : List String} (h : x ∈ nonemptyTrims raws) :
    x ≠ "" ∧ ∃ r, r ∈ raws ∧ x = trimLine r := by
  unfold nonemptyTrims at h
  obtain ⟨hmem, hne⟩ := List.mem_filter.mp h
  obtain ⟨r, hr, hx⟩ := List.mem_map.mp hmem
  exact ⟨by simpa using hne, r, hr, hx.symm⟩

theorem append_nl_ne (a x : String) : a ++ "\n" ++ x ≠ "" := by
  intro h
  have hd := congrArg String.data h
  rw [String.data_append, String.data_append] at hd
  simp at hd

theorem joinNL_cons_ne (z : String) (zs : List String) (hz : z ≠ "") :
    joinNL (z :: zs) ≠ "" := by
  cases zs with
  | nil => exact hz
  | cons y ys => exact append_nl_ne z (joinNL (y :: ys))

theorem foldl_pushLine_join : ∀ (ls : List String) (a : String), a ≠ "" →
    ls.foldl pushLine a = joinNL (a :: ls) := by
  intro ls
  induction ls with
  | nil => intro a _; rfl
  | cons x xs ih =>
    intro a ha
    show xs.foldl pushLine (pushLine a x) = joinNL (a :: x :: xs)
    have hpush : pushLine a x = a ++ "\n" ++ x := by
      unfold pushLine; rw [if_neg ha]
    rw [hpush, ih (a ++ "\n" ++ x) (append_nl_ne a x)]
    cases xs with
    | nil => rfl
    | cons y ys =>
      show (a ++ "\n" ++ x) ++ "\n" ++ joinNL (y :: ys) =
        a ++ "\n" ++ (x ++ "\n" ++ joinNL (y :: ys))
      simp only [String.append_assoc]

theorem head?_mem {A : Type} {l : List A} {a : A} (h : l.head? = some a) : a ∈ l := by
  cases l with
  | nil => cases h
  | cons x xs =>
    have hxa : x = a := by
      rw [List.head?_cons] at h
      exact Option.some.inj h
    rw [← hxa]
    exact List.mem_cons_self x xs

theorem getLast?_mem {A : Type} : ∀ {l : List A} {a : A}, l.getLast? = some a → a ∈ l := by
  intro l
  induction l with
  | nil => intro a h; cases h
  | cons x xs ih =>
    intro a h
    cases xs with
    | nil =>
      rw [List.getLast?_singleton] at h
      cases h
      exact List.mem_cons_self x []
    | cons y ys =>
      rw [List.getLast?_cons_cons] at h
      exact List.mem_cons_of_mem x (ih h)

theorem joinNL_head (z : String) (zs : List String) (hz : z ≠ "") :
    (joinNL (z :: zs)).data.head? = z.data.head? := by
  cases zs with
  | nil => rfl
  | cons y ys =>
    show ((z ++ "\n") ++ joinNL (y :: ys)).data.head? = z.data.head?
    rw [String.data_append, String.data_append]
    cases hzd : z.data with
    | nil => exact absurd (String.ext hzd) hz
    | cons c cs => simp

theorem joinNL_last : ∀ (zs : List String) (z : String), z ≠ "" → (∀ x ∈ zs, x ≠ "") →
    ∃ w, w ∈ z :: zs ∧ (joinNL (z :: zs)).data.getLast? = w.data.getLast? := by
  intro zs
  induction zs with
  | nil => intro z hz _; exact ⟨z, List.mem_cons_self z [], rfl⟩
  | cons y ys ih =>
    intro z hz hmem
    have hy : y ≠ "" := hmem y (List.mem_cons_self y ys)
    obtain ⟨w, hw, hlast⟩ := ih y hy (fun x hx => hmem x (List.mem_cons_of_mem y hx))
    refine ⟨w, List.mem_cons_of_mem z hw, ?_⟩
    show ((z ++ "\n") ++ joinNL (y :: ys)).data.getLast? = w.data.getLast?
    rw [String.data_append, ← hlast]
    have hne : (joinNL (y :: ys)).data ≠ [] := by
      intro hd
      exact joinNL_cons_ne y ys hy (String.ext hd)
    rw [List.getLast?_append]
    cases hjd : (joinNL (y :: ys)).data with
    | nil => exact absurd hjd hne
    | cons c cs =>
      have : (c :: cs).getLast?.isSome := by
        rw [List.getLast?_isSome]; simp
      cases hsome : (c :: cs).getLast? with
      | none => rw [hsome] at this; cases this
      | some w2 => simp [hsome]

theorem next_page_loop_spec (maxB maxD : Nat) :
    ∀ (fuel : Nat) (lines : List String) (page : String) (tot cnt : Nat),
      ∃ k, k ≤ lines.length ∧
        next_page_loop maxB maxD fuel lines page tot cnt =
          ((nonemptyTrims (lines.take k)).foldl pushLine page, lines.drop k) ∧
        (k < lines.length →
          fuel ≤ k ∨ maxB < tot + sumBytes (lines.take k) ∨
            maxD ≤ cnt + (nonemptyTrims (lines.take k)).length) := by
  intro fuel
  induction fuel with
  | zero =>
    intro lines page tot cnt
    exact ⟨0, Nat.zero_le _, by rw [next_page_loop_zero]; rfl, fun _ => Or.inl (Nat.le_refl 0)⟩
  | succ fuel ih =>
    intro lines page tot cnt
    cases lines with
    | nil =>
      exact ⟨0, Nat.le_refl 0, by rw [next_page_loop_eof]; rfl, fun h => absurd h (by simp)⟩
    | cons l rest =>
      rw [next_page_loop_cons]
      have htake1 : (l :: rest).take 1 = [l] := rfl
      have hsum1 : sumBytes [l] = l.utf8ByteSize := by simp [sumBytes]
      by_cases hb : maxB < tot + l.utf8ByteSize
      · refine ⟨1, by simp, ?_, ?_⟩
        · rw [if_pos hb, htake1, nonemptyTrims_cons, nonemptyTrims_nil]
          by_cases htr : trimLine l = ""
          · rw [if_pos htr, if_pos htr]; rfl
          · rw [if_neg htr, if_neg htr]; rfl
        · intro _
          refine Or.inr (Or.inl ?_)
          rw [htake1, hsum1]
          exact hb
      · rw [if_neg hb]
        by_cases hd : maxD ≤ (if trimLine l = "" then cnt else cnt + 1)
        · refine ⟨1, by simp, ?_, ?_⟩
          · rw [if_pos hd, htake1, nonemptyTrims_cons, nonemptyTrims_nil]
            by_cases htr : trimLine l = ""
            · rw [if_pos htr, if_pos htr]; rfl
            · rw [if_neg htr, if_neg htr]; rfl
          · intro _
            refine Or.inr (Or.inr ?_)
            rw [htake1, nonemptyTrims_cons, nonemptyTrims_nil]
            by_cases htr : trimLine l = ""
            · rw [if_pos htr] at hd ⊢; simpa using hd
            · rw [if_neg htr] at hd ⊢; simpa using hd
        · rw [if_neg hd]
          obtain ⟨k2, hk2, heq, hstop⟩ := ih rest
            (if trimLine l = "" then page else pushLine page (trimLine l))
            (tot + l.utf8ByteSize) (if trimLine l = "" then cnt else cnt + 1)
          refine ⟨k2 + 1, by simpa using hk2, ?_, ?_⟩
          · rw [heq, List.take_succ_cons, List.drop_succ_cons, nonemptyTrims_cons]
            by_cases htr : trimLine l = ""
            · rw [if_pos htr, if_pos htr]
            · rw [if_neg htr, if_neg htr]
              show ((nonemptyTrims (rest.take k2)).foldl pushLine (pushLine page (trimLine l)),
                rest.drop k2) = _
              rfl
          · intro hlt
            have hlt2 : k2 < rest.length := by
              simp only [List.length_cons] at hlt; omega
            rcases hstop hlt2 with hf | hby | hdo
            · exact Or.inl (by omega)
            · refine Or.inr (Or.inl ?_)
              rw [List.take_succ_cons, sumBytes_cons]
              omega
            · refine Or.inr (Or.inr ?_)
              rw [List.take_succ_cons, nonemptyTrims_cons]
              by_cases htr : trimLine l = ""
              · rw [if_pos htr]
                rw [if_pos htr] at hdo
                omega
              · rw [if_neg htr]
                rw [if_neg htr] at hdo
                simp only [List.length_cons]
                omega

/--
C7, corrected.  `FileSource::next_page` consumes a prefix of the raw
lines, strips trailing newline and carriage return characters from each,
joins the nonempty ones with single newlines (no leading or trailing
newline in the page); at end of input the accumulated nonempty page is
returned, and a call on an exhausted reader returns `None`.  An early
stop, however, has one more cause than the claim enumerates: besides the
raw byte count exceeding `max_batch_size_bytes` and the nonempty line
count reaching `max_batch_size_docs`, the `for _ in
0..=max_batch_size_docs` iteration bound can run out first, because it
counts raw reads, blank lines included (see the counterexample).
-/
theorem file_next_page_spec (maxB maxD : Nat) (lines : List String)
    (hwf : ∀ l ∈ lines, l ≠ "" ∧ ∀ ch ∈ (trimLine l).data, ch ≠ '\n') :
    ∃ k, k ≤ lines.length ∧
      FileSource.next_page maxB maxD ⟨lines⟩ =
        ((if nonemptyTrims (lines.take k) = [] then none
          else some (joinNL (nonemptyTrims (lines.take k)))), ⟨lines.drop k⟩) ∧
      (∀ page, (FileSource.next_page maxB maxD ⟨lines⟩).1 = some page →
         page ≠ "" ∧ page.data.head? ≠ some '\n' ∧ page.data.getLast? ≠ some '\n') ∧
      (k < lines.length →
        maxD + 1 ≤ k ∨ maxB < sumBytes (lines.take k) ∨
          maxD ≤ (nonemptyTrims (lines.take k)).length) ∧
      FileSource.next_page maxB maxD ⟨[]⟩ = (none, ⟨[]⟩) := by
  obtain ⟨k, hk, heq, hstop⟩ := next_page_loop_spec maxB maxD (maxD + 1) lines "" 0 0
  have hgoodtrims : ∀ x ∈ nonemptyTrims (lines.take k),
      x ≠ "" ∧ ∀ ch ∈ x.data, ch ≠ '\n' := by
    intro x hx
    obtain ⟨hxne, r, hr, hxr⟩ := mem_nonemptyTrims hx
    have hrin : r ∈ lines := List.mem_of_mem_take hr
    exact ⟨hxne, by rw [hxr]; exact (hwf r hrin).2⟩
  have hresult : FileSource.next_page maxB maxD ⟨lines⟩ =
      ((if nonemptyTrims (lines.take k) = [] then none
        else some (joinNL (nonemptyTrims (lines.take k)))), ⟨lines.drop k⟩) := by
    unfold FileSource.next_page
    rw [heq]
    cases hls : nonemptyTrims (lines.take k) with
    | nil => rfl
    | cons z zs =>
      have hz : z ≠ "" := (hgoodtrims z (by rw [hls]; exact List.mem_cons_self z zs)).1
      have hfold : (z :: zs).foldl pushLine "" = joinNL (z :: zs) := by
        show zs.foldl pushLine (pushLine "" z) = joinNL (z :: zs)
        have : pushLine "" z = z := by unfold pushLine; rw [if_pos rfl]
        rw [this, foldl_pushLine_join zs z hz]
      simp only [hfold]
      rw [if_neg (joinNL_cons_ne z zs hz)]
      rfl
  refine ⟨k, hk, hresult, ?_, ?_, rfl⟩
  swap
  · intro h
    rcases hstop h with h1 | h2 | h3
    · exact Or.inl h1
    · exact Or.inr (Or.inl (by omega))
    · exact Or.inr (Or.inr (by omega))
  intro page hpage
  rw [hresult] at hpage
  cases hls : nonemptyTrims (lines.take k) with
  | nil => rw [hls] at hpage; simp at hpage
  | cons z zs =>
    rw [hls, if_neg (by simp)] at hpage
    have hpageq : page = joinNL (z :: zs) := by
      cases hpage
      rfl
    have hz := hgoodtrims z (by rw [hls]; exact List.mem_cons_self z zs)
    refine ⟨by rw [hpageq]; exact joinNL_cons_ne z zs hz.1, ?_, ?_⟩
    · rw [hpageq, joinNL_head z zs hz.1]
      intro hh
      exact hz.2 '\n' (head?_mem hh) rfl
    · obtain ⟨w, hw, hlast⟩ := joinNL_last zs z hz.1
        (fun x hx => (hgoodtrims x (by rw [hls]; exact List.mem_cons_of_mem z hx)).1)
      have hwgood := hgoodtrims w (by rw [hls]; exact hw)
      rw [hpageq, hlast]
      intro hh
      exact hwgood.2 '\n' (getLast?_mem hh) rfl

/--
C7 witness: the specification theorem applied to a two line file read
with generous caps.
-/
theorem file_next_page_spec_witness :
    ∃ k, k ≤ (["a\n", "b\n"] : List String).length ∧
      FileSource.next_page 100 10 ⟨["a\n", "b\n"]⟩ =
        ((if nonemptyTrims ((["a\n", "b\n"] : List String).take k) = [] then none
          else some (joinNL (nonemptyTrims ((["a\n", "b\n"] : List String).take k)))),
         ⟨(["a\n", "b\n"] : List String).drop k⟩) ∧
      (∀ page, (FileSource.next_page 100 10 ⟨["a\n", "b\n"]⟩).1 = some page →
         page ≠ "" ∧ page.data.head? ≠ some '\n' ∧ page.data.getLast? ≠ some '\n') ∧
      (k < (["a\n", "b\n"] : List String).length →
        10 + 1 ≤ k ∨ 100 < sumBytes ((["a\n", "b\n"] : List String).take k) ∨
          10 ≤ (nonemptyTrims ((["a\n", "b\n"] : List String).take k)).length) ∧
      FileSource.next_page 100 10 ⟨[]⟩ = (none, ⟨[]⟩) :=
  file_next_page_spec 100 10 ["a\n", "b\n"] (by decide)

/--
C7 counterexample: the `for _ in 0..=max_batch_size_docs` iteration
bound counts raw reads, blank lines included, so it is a fourth stop
cause the claim's enumeration excludes.  With
`max_batch_size_bytes = 1000` and `max_batch_size_docs = 2`, the raw
lines `a\n, \n, \n, b\n` exhaust the three permitted reads and
`next_page` returns the page `a` with `b\n` unread — although the total
raw bytes (6) never exceed the cap, the nonempty line count never
reaches 2 before the stop, and the reader is not at end of file (the
next call yields `b`).  Under the claimed three stop causes the first
page would have been `a\nb`, the join of both nonempty lines.
-/
theorem file_next_page_iteration_bound_cex :
    FileSource.next_page 1000 2 ⟨["a\n", "\n", "\n", "b\n"]⟩ = (some "a", ⟨["b\n"]⟩) ∧
    FileSource.next_page 1000 2 ⟨["b\n"]⟩ = (some "b", ⟨[]⟩) ∧
    sumBytes ["a\n", "\n", "\n", "b\n"] ≤ 1000 ∧
    joinNL (nonemptyTrims ["a\n", "\n", "\n", "b\n"]) = "a\nb" :=
  ⟨rfl, rfl, by decide, rfl⟩

theorem blank_loop (maxB maxD : Nat) :
    ∀ (blanks : List String) (fuel : Nat) (rest : List String) (tot cnt : Nat),
      blanks ≠ [] →
      (∀ b ∈ blanks, trimLine b = "") →
      maxB < tot + sumBytes blanks →
      1 ≤ fuel →
      ∃ k, 1 ≤ k ∧ k ≤ blanks.length ∧
        next_page_loop maxB maxD fuel (blanks ++ rest) "" tot cnt =
          ("", blanks.drop k ++ rest) := by
  intro blanks
  induction blanks with
  | nil => intro fuel rest tot cnt hne; exact absurd rfl hne
  | cons b bs ih =>
    intro fuel rest tot cnt _ hblank hbytes hfuel
    obtain ⟨fuel, rfl⟩ : ∃ f, fuel = f + 1 := ⟨fuel - 1, by omega⟩
    have htrim : trimLine b = "" := hblank b (List.mem_cons_self b bs)
    rw [List.cons_append, next_page_loop_cons]
    simp only [htrim, reduceIte]
    by_cases hb : maxB < tot + b.utf8ByteSize
    · exact ⟨1, Nat.le_refl 1, by simp, by rw [if_pos hb]; rfl⟩
    · rw [if_neg hb]
      by_cases hd : maxD ≤ cnt
      · exact ⟨1, Nat.le_refl 1, by simp, by rw [if_pos hd]; rfl⟩
      · rw [if_neg hd]
        cases fuel with
        | zero =>
          exact ⟨1, Nat.le_refl 1, by simp, by rw [next_page_loop_zero]; rfl⟩
        | succ f2 =>
          have hbsne : bs ≠ [] := by
            intro h
            rw [h] at hbytes
            rw [sumBytes_cons] at hbytes
            simp [sumBytes] at hbytes
            omega
          have hbytes2 : maxB < (tot + b.utf8ByteSize) + sumBytes bs := by
            rw [sumBytes_cons] at hbytes
            omega
          obtain ⟨k2, h1, h2, h3⟩ := ih (f2 + 1) rest (tot + b.utf8ByteSize) cnt
            hbsne (fun x hx => hblank x (List.mem_cons_of_mem b hx)) hbytes2 (by omega)
          exact ⟨k2 + 1, by omega, by simp; omega, by rw [h3]; rfl⟩

/--
C10.  In the File and ObjectStore sources, lines that trim to empty are
skipped and do not count toward the doc cap, but their raw bytes count
toward the byte stop: a contiguous run of blank lines whose raw bytes
exceed `max_batch_size_bytes` makes `next_page` return `None` — treated
as end-of-stream — while the rest of the input is still unread, and the
ObjectStore reader behaves identically to the File reader.
-/
theorem blank_run_byte_cap (maxB maxD : Nat) (blanks rest : List String)
    (hblank : ∀ b ∈ blanks, trimLine b = "")
    (hbytes : maxB < sumBytes blanks) :
    (∃ k, 1 ≤ k ∧ k ≤ blanks.length ∧
      FileSource.next_page maxB maxD ⟨blanks ++ rest⟩ =
        (none, ⟨blanks.drop k ++ rest⟩)) ∧
    S3RallySource.next_page maxB maxD ⟨blanks ++ rest⟩ =
      FileSource.next_page maxB maxD ⟨blanks ++ rest⟩ := by
  have hne : blanks ≠ [] := by
    intro h
    rw [h] at hbytes
    simp [sumBytes] at hbytes
  obtain ⟨k, h1, h2, h3⟩ := blank_loop maxB maxD blanks (maxD + 1) rest 0 0 hne hblank
    (by omega) (by omega)
  refine ⟨⟨k, h1, h2, ?_⟩, rfl⟩
  unfold FileSource.next_page
  rw [h3]
  rfl

/--
C10 witness: three blank lines of one byte each under a two byte cap
make the reader return `None` while `x` remains unread.
-/
theorem blank_run_byte_cap_witness :
    (∃ k, 1 ≤ k ∧ k ≤ (["\n", "\n", "\n"] : List String).length ∧
      FileSource.next_page 2 10 ⟨["\n", "\n", "\n"] ++ ["x\n"]⟩ =
        (none, ⟨(["\n", "\n", "\n"] : List String).drop k ++ ["x\n"]⟩)) ∧
    S3RallySource.next_page 2 10 ⟨["\n", "\n", "\n"] ++ ["x\n"]⟩ =
      FileSource.next_page 2 10 ⟨["\n", "\n", "\n"] ++ ["x\n"]⟩ :=
  blank_run_byte_cap 2 10 ["\n", "\n", "\n"] ["x\n"] (by decide) (by decide)

/-! ## Helper lemmas about the Rally per-line transform -/

theorem lookupMember_cons_eq {k : String} {kv : String × Json} {rest : List (String × Json)}
    (h : kv.1 = k) : lookupMember k (kv :: rest) = some kv.2 := by
  simp only [lookupMember]
  rw [if_pos h]

theorem lookupMember_cons_ne {k : String} {kv : String × Json} {rest : List (String × Json)}
    (h : kv.1 ≠ k) : lookupMember k (kv :: rest) = lookupMember k rest := by
  simp only [lookupMember]
  rw [if_neg h]

theorem lookupMember_removeMember (k k2 : String) :
    ∀ (kvs : List (String × Json)),
      lookupMember k (removeMember k2 kvs) = if k = k2 then none else lookupMember k kvs := by
  intro kvs
  induction kvs with
  | nil => by_cases h : k = k2 <;> simp [removeMember, lookupMember, h]
  | cons kv rest ih =>
    show lookupMember k (List.filter (fun kv => kv.1 != k2) (kv :: rest)) = _
    rw [List.filter_cons]
    by_cases hk : kv.1 = k2
    · rw [if_neg (by simp [hk])]
      show lookupMember k (removeMember k2 rest) = _
      rw [ih]
      by_cases hkk : k = k2
      · rw [if_pos hkk, if_pos hkk]
      · rw [if_neg hkk, if_neg hkk,
          lookupMember_cons_ne (show kv.1 ≠ k by rw [hk]; intro h2; exact hkk h2.symm)]
    · rw [if_pos (by simp [hk])]
      by_cases hkv : kv.1 = k
      · rw [lookupMember_cons_eq hkv,
          if_neg (show ¬ k = k2 by rw [← hkv]; intro h2; exact hk h2),
          lookupMember_cons_eq hkv]
      · rw [lookupMember_cons_ne hkv]
        show lookupMember k (removeMember k2 rest) = _
        rw [ih, lookupMember_cons_ne hkv]

theorem lookupMember_fold_remove :
    ∀ (fields : List String) (kvs : List (String × Json)) (k : String),
      lookupMember k (fields.foldl (fun m f => removeMember f m) kvs) =
        if k ∈ fields then none else lookupMember k kvs := by
  intro fields
  induction fields with
  | nil => intro kvs k; simp
  | cons f fs ih =>
    intro kvs k
    show lookupMember k (fs.foldl (fun m f => removeMember f m) (removeMember f kvs)) = _
    rw [ih (removeMember f kvs) k, lookupMember_removeMember]
    by_cases h1 : k ∈ fs
    · rw [if_pos h1, if_pos (List.mem_cons_of_mem f h1)]
    · rw [if_neg h1]
      by_cases h2 : k = f
      · rw [if_pos h2, if_pos (by rw [h2]; exact List.mem_cons_self f fs)]
      · rw [if_neg h2, if_neg (by rw [List.mem_cons]; rintro (h | h); exact h2 h; exact h1 h)]

/--
C4.  For every input that parses as a JSON object, the RallyToBulk
per-line transform produces exactly `<action-line>\n<source-line>`: the
source line is the compact re-serialization of the object with the six
metadata keys removed at the top level only (every other key, nested
content included, is looked up unchanged), and the action line embeds
the escaped ObjectID (numbers stringified, strings as-is, other values
in their JSON textual form) or is `{"index":{}}` when absent.
-/
theorem rally_transform_shape (raw : String) (obj : List (String × Json))
    (h : parseJson raw = some (Json.obj obj)) :
    rally_s3_to_es.transform raw =
      Except.ok (rally_s3_to_es.build_es_action_line
          ((jsonGet (Json.obj obj) "ObjectID").map rally_s3_to_es.oidToString)
        ++ "\n" ++ serializeJson (rally_s3_to_es.stripMeta (Json.obj obj))) ∧
    (∀ k ∈ rally_s3_to_es.THE_METADATA_FIELDS_WE_DONT_NEED,
        jsonGet (rally_s3_to_es.stripMeta (Json.obj obj)) k = none) ∧
    (∀ k, k ∉ rally_s3_to_es.THE_METADATA_FIELDS_WE_DONT_NEED →
        jsonGet (rally_s3_to_es.stripMeta (Json.obj obj)) k = jsonGet (Json.obj obj) k) ∧
    (∀ n, rally_s3_to_es.oidToString (Json.num n) = toString n) ∧
    (∀ s, rally_s3_to_es.oidToString (Json.str s) = s) ∧
    (∀ id, rally_s3_to_es.build_es_action_line (some id) =
        "\x7b\"index\":\x7b\"_id\":\"" ++ rally_s3_to_es.escape_json_string id ++ "\"\x7d\x7d") ∧
    rally_s3_to_es.build_es_action_line none = "\x7b\"index\":\x7b\x7d\x7d" := by
  refine ⟨?_, ?_, ?_, fun n => rfl, fun s => rfl, fun id => rfl, rfl⟩
  · unfold rally_s3_to_es.transform
    rw [h]
  · intro k hk
    show lookupMember k (rally_s3_to_es.THE_METADATA_FIELDS_WE_DONT_NEED.foldl
      (fun m f => removeMember f m) obj) = none
    rw [lookupMember_fold_remove, if_pos hk]
  · intro k hk
    show lookupMember k (rally_s3_to_es.THE_METADATA_FIELDS_WE_DONT_NEED.foldl
      (fun m f => removeMember f m) obj) = lookupMember k obj
    rw [lookupMember_fold_remove, if_neg hk]

/--
C4 witness: the theorem applied to a concrete Rally document with an
`ObjectID` and a `_ref` metadata field.
-/
theorem rally_transform_shape_witness :
    rally_s3_to_es.transform "\x7b\"ObjectID\":1,\"_ref\":\"r\"\x7d" =
      Except.ok (rally_s3_to_es.build_es_action_line
          ((jsonGet (Json.obj [("ObjectID", Json.num 1), ("_ref", Json.str "r")])
              "ObjectID").map rally_s3_to_es.oidToString)
        ++ "\n" ++ serializeJson (rally_s3_to_es.stripMeta
            (Json.obj [("ObjectID", Json.num 1), ("_ref", Json.str "r")]))) :=
  (rally_transform_shape "\x7b\"ObjectID\":1,\"_ref\":\"r\"\x7d"
    [("ObjectID", Json.num 1), ("_ref", Json.str "r")] rfl).1

theorem rally_transform_parse_failure {l : String} (h : parseJson l = none) :
    rally_s3_to_es.transform l = Except.error "Rally JSON parse failed" := by
  unfold rally_s3_to_es.transform
  rw [h]

theorem rally_transform_parse_ok {l : String} {doc : Json} (h : parseJson l = some doc) :
    rally_s3_to_es.transform l =
      Except.ok (rally_s3_to_es.build_es_action_line
          ((jsonGet doc "ObjectID").map rally_s3_to_es.oidToString)
        ++ "\n" ++ serializeJson (rally_s3_to_es.stripMeta doc)) := by
  unfold rally_s3_to_es.transform
  rw [h]

theorem mapM_error_of_mem {A B : Type} (f : A → Except String B) :
    ∀ (ls : List A), (∃ a, a ∈ ls ∧ ∀ b, f a ≠ Except.ok b) →
      ∃ msg, ls.mapM f = Except.error msg := by
  intro ls
  induction ls with
  | nil => rintro ⟨a, ha, _⟩; cases ha
  | cons x xs ih =>
    rintro ⟨a, ha, hbad⟩
    cases hfx : f x with
    | error e => exact ⟨e, by rw [List.mapM_cons, hfx, except_bind_error]⟩
    | ok b =>
      rcases List.mem_cons.mp ha with rfl | ha2
      · exact absurd hfx (hbad b)
      · obtain ⟨msg, hmsg⟩ := ih ⟨a, ha2, hbad⟩
        exact ⟨msg, by rw [List.mapM_cons, hfx, except_bind_ok, hmsg, except_bind_error]⟩

theorem mapM_first_error {A B : Type} (f : A → Except String B) :
    ∀ (ls1 : List A) (a : A) (ls2 : List A) (e : String),
      (∀ x ∈ ls1, ∃ b, f x = Except.ok b) → f a = Except.error e →
      (ls1 ++ a :: ls2).mapM f = Except.error e := by
  intro ls1
  induction ls1 with
  | nil =>
    intro a ls2 e _ hfa
    rw [List.nil_append, List.mapM_cons, hfa, except_bind_error]
  | cons x xs ih =>
    intro a ls2 e hok hfa
    obtain ⟨b, hb⟩ := hok x (List.mem_cons_self x xs)
    rw [List.cons_append, List.mapM_cons, hb, except_bind_ok,
      ih a ls2 e (fun y hy => hok y (List.mem_cons_of_mem x hy)) hfa, except_bind_error]

/--
C6.  When a nonempty input line of a page is not valid JSON, the
RallyToBulk page transform returns an error rather than succeeding, and
when that line is the first failing one, the error message embeds the
offending line itself.
-/
theorem rally_page_transform_line_error (page l : String)
    (hl : l ∈ nonemptyLines page)
    (hbad : parseJson l = none) :
    l ≠ "" ∧
    (∃ msg, rally_page_transform page = Except.error msg) ∧
    (∀ ls1 ls2, nonemptyLines page = ls1 ++ l :: ls2 →
      (∀ x ∈ ls1, parseJson x ≠ none) →
      rally_page_transform page =
        Except.error ("failed to transform line [" ++ l ++ "]: " ++
          "Rally JSON parse failed")) := by
  have hfl : (match rally_s3_to_es.transform l with
      | .ok item => Except.ok item
      | .error e => Except.error ("failed to transform line [" ++ l ++ "]: " ++ e)) =
      Except.error ("failed to transform line [" ++ l ++ "]: " ++ "Rally JSON parse failed") := by
    simp only [rally_transform_parse_failure hbad]
  refine ⟨?_, ?_, ?_⟩
  · have := (List.mem_filter.mp hl).2
    simpa using this
  · refine mapM_error_of_mem _ (nonemptyLines page) ⟨l, hl, ?_⟩
    intro b hb
    rw [hfl] at hb
    cases hb
  · intro ls1 ls2 hsplit hok
    unfold rally_page_transform
    rw [hsplit]
    refine mapM_first_error _ ls1 l ls2 _ ?_ hfl
    intro x hx
    cases hpx : parseJson x with
    | none => exact absurd hpx (hok x hx)
    | some doc =>
      refine ⟨rally_s3_to_es.build_es_action_line
          ((jsonGet doc "ObjectID").map rally_s3_to_es.oidToString)
        ++ "\n" ++ serializeJson (rally_s3_to_es.stripMeta doc), ?_⟩
      simp only [rally_transform_parse_ok hpx]

/--
C6 witness: the theorem applied to the one line page `notjson`, which is
nonempty and not valid JSON.
-/
theorem rally_page_transform_line_error_witness :
    ("notjson" : String) ≠ "" ∧
    (∃ msg, rally_page_transform "notjson" = Except.error msg) ∧
    (∀ ls1 ls2, nonemptyLines "notjson" = ls1 ++ "notjson" :: ls2 →
      (∀ x ∈ ls1, parseJson x ≠ none) →
      rally_page_transform "notjson" =
        Except.error ("failed to transform line [" ++ "notjson" ++ "]: " ++
          "Rally JSON parse failed")) :=
  rally_page_transform_line_error "notjson" "notjson" (by decide) rfl

/--
Closing quote: the string body parser returns the remainder unchanged.
-/
theorem psb_quote (fuel : Nat) (X : List Char) :
    parseStringBody (fuel + 1) ('"' :: X) = some ([], X) := rfl

/--
A plain character (no quote, no backslash, not a control character) is
taken verbatim and parsing continues.
-/
theorem psb_raw_ok {c : Char} {X cs r : List Char} {fuel : Nat} (h1 : c ≠ '"') (h2 : c ≠ '\\')
    (h3 : 0x20 ≤ c.toNat) (h : parseStringBody fuel X = some (cs, r)) :
    parseStringBody (fuel + 1) (c :: X) = some (c :: cs, r) := by
  simp only [parseStringBody]
  rw [if_neg h1, if_neg h2, if_neg (by omega : ¬ c.toNat < 0x20), h]

/--
The escape sequence for a double quote decodes back to a double quote.
-/
theorem psb_esc_quote {X cs r : List Char} {fuel : Nat} (h : parseStringBody fuel X = some (cs, r)) :
    parseStringBody (fuel + 1) ('\\' :: '"' :: X) = some ('"' :: cs, r) := by
  show (match parseStringBody fuel X with
        | none => none
        | some (cs, r) => some ('"' :: cs, r)) = some ('"' :: cs, r)
  rw [h]

/--
The escape sequence for a backslash decodes back to a backslash.
-/
theorem psb_esc_bslash {X cs r : List Char} {fuel : Nat}
    (h : parseStringBody fuel X = some (cs, r)) :
    parseStringBody (fuel + 1) ('\\' :: '\\' :: X) = some ('\\' :: cs, r) := by
  show (match parseStringBody fuel X with
        | none => none
        | some (cs, r) => some ('\\' :: cs, r)) = some ('\\' :: cs, r)
  rw [h]

/--
The escape sequence for a line feed decodes back to a line feed.
-/
theorem psb_esc_n {X cs r : List Char} {fuel : Nat} (h : parseStringBody fuel X = some (cs, r)) :
    parseStringBody (fuel + 1) ('\\' :: 'n' :: X) = some ('\n' :: cs, r) := by
  show (match parseStringBody fuel X with
        | none => none
        | some (cs, r) => some ('\n' :: cs, r)) = some ('\n' :: cs, r)
  rw [h]

/--
The escape sequence for a carriage return decodes back to a carriage
return.
-/
theorem psb_esc_r {X cs r : List Char} {fuel : Nat} (h : parseStringBody fuel X = some (cs, r)) :
    parseStringBody (fuel + 1) ('\\' :: 'r' :: X) = some ('\r' :: cs, r) := by
  show (match parseStringBody fuel X with
        | none => none
        | some (cs, r) => some ('\r' :: cs, r)) = some ('\r' :: cs, r)
  rw [h]

/--
The escape sequence for a tab decodes back to a tab.
-/
theorem psb_esc_t {X cs r : List Char} {fuel : Nat} (h : parseStringBody fuel X = some (cs, r)) :
    parseStringBody (fuel + 1) ('\\' :: 't' :: X) = some ('\t' :: cs, r) := by
  show (match parseStringBody fuel X with
        | none => none
        | some (cs, r) => some ('\t' :: cs, r)) = some ('\t' :: cs, r)
  rw [h]

/--
A `\uXXXX` escape reduces to `uniBody` applied to the decoded hex value.
-/
theorem psb_unicode (fuel : Nat) (a b c2 d : Char) (X : List Char) :
    parseStringBody (fuel + 1) ('\\' :: 'u' :: a :: b :: c2 :: d :: X) =
      match hex4 a b c2 d with
      | none => none
      | some n => uniBody fuel X n := rfl

/--
A `\uXXXX` escape whose value is below the surrogate range decodes to
that code point and parsing continues.
-/
theorem psb_unicode_low {a b c2 d : Char} {X cs r : List Char} {fuel n : Nat}
    (hhex : hex4 a b c2 d = some n) (hlow : n < 0xD800)
    (h : parseStringBody fuel X = some (cs, r)) :
    parseStringBody (fuel + 1) ('\\' :: 'u' :: a :: b :: c2 :: d :: X) =
      some (Char.ofNat n :: cs, r) := by
  rw [psb_unicode, hhex]
  show uniBody fuel X n = some (Char.ofNat n :: cs, r)
  unfold uniBody
  rw [if_neg (show ¬ (0xD800 ≤ n ∧ n ≤ 0xDBFF) by omega),
      if_neg (show ¬ (0xDC00 ≤ n ∧ n ≤ 0xDFFF) by omega), h]

/--
The four hex digits emitted by the `\u{:04x}` format for a control
character decode back to its value.
-/
theorem hex4_hexDigits (n : Nat) (h : n < 0x20) :
    hex4 (hexChar (n / 4096 % 16)) (hexChar (n / 256 % 16))
      (hexChar (n / 16 % 16)) (hexChar (n % 16)) = some n := by
  have hall : ∀ m : Nat, m < 0x20 →
      hex4 (hexChar (m / 4096 % 16)) (hexChar (m / 256 % 16))
        (hexChar (m / 16 % 16)) (hexChar (m % 16)) = some m := by decide
  exact hall n h

/--
A string of plain characters (no quote, no backslash, no control
character) followed by a closing quote parses back to itself: the fast
path of `escape_json_string` round trips.
-/
theorem parseStringBody_plain :
    ∀ cs : List Char, (∀ c ∈ cs, c ≠ '"' ∧ c ≠ '\\' ∧ 0x20 ≤ c.toNat) →
    ∀ (fuel : Nat) (rest : List Char),
      parseStringBody (fuel + cs.length + 1) (cs ++ '"' :: rest) = some (cs, rest) := by
  intro cs
  induction cs with
  | nil => intro _ fuel rest; exact psb_quote fuel rest
  | cons c cs ih =>
    intro h fuel rest
    obtain ⟨h1, h2, h3⟩ := h c (List.mem_cons_self c cs)
    exact psb_raw_ok h1 h2 h3 (ih (fun x hx => h x (List.mem_cons_of_mem c hx)) fuel rest)

/--
The slow path of `escape_json_string` round trips: escaping every
character and appending a closing quote parses back to the original
characters.
-/
theorem parseStringBody_escaped :
    ∀ (cs : List Char) (fuel : Nat) (rest : List Char),
      parseStringBody (fuel + cs.length + 1)
        (cs.flatMap rally_s3_to_es.escapeCharSlow ++ '"' :: rest) = some (cs, rest) := by
  intro cs
  induction cs with
  | nil => intro fuel rest; exact psb_quote fuel rest
  | cons c cs ih =>
    intro fuel rest
    rw [show (c :: cs).flatMap rally_s3_to_es.escapeCharSlow =
          rally_s3_to_es.escapeCharSlow c ++ cs.flatMap rally_s3_to_es.escapeCharSlow from rfl,
        List.append_assoc]
    have hrec := ih fuel rest
    by_cases h1 : c = '"'
    · subst h1
      show parseStringBody ((fuel + cs.length + 1) + 1)
        ('\\' :: '"' :: (cs.flatMap rally_s3_to_es.escapeCharSlow ++ '"' :: rest)) =
        some ('"' :: cs, rest)
      exact psb_esc_quote hrec
    by_cases h2 : c = '\\'
    · subst h2
      show parseStringBody ((fuel + cs.length + 1) + 1)
        ('\\' :: '\\' :: (cs.flatMap rally_s3_to_es.escapeCharSlow ++ '"' :: rest)) =
        some ('\\' :: cs, rest)
      exact psb_esc_bslash hrec
    by_cases h3 : c = '\n'
    · subst h3
      show parseStringBody ((fuel + cs.length + 1) + 1)
        ('\\' :: 'n' :: (cs.flatMap rally_s3_to_es.escapeCharSlow ++ '"' :: rest)) =
        some ('\n' :: cs, rest)
      exact psb_esc_n hrec
    by_cases h4 : c = '\r'
    · subst h4
      show parseStringBody ((fuel + cs.length + 1) + 1)
        ('\\' :: 'r' :: (cs.flatMap rally_s3_to_es.escapeCharSlow ++ '"' :: rest)) =
        some ('\r' :: cs, rest)
      exact psb_esc_r hrec
    by_cases h5 : c = '\t'
    · subst h5
      show parseStringBody ((fuel + cs.length + 1) + 1)
        ('\\' :: 't' :: (cs.flatMap rally_s3_to_es.escapeCharSlow ++ '"' :: rest)) =
        some ('\t' :: cs, rest)
      exact psb_esc_t hrec
    by_cases h6 : c.toNat < 0x20
    · have henc : rally_s3_to_es.escapeCharSlow c = '\\' :: 'u' :: hexDigits4 c.toNat := by
        unfold rally_s3_to_es.escapeCharSlow
        rw [if_neg h1, if_neg h2, if_neg h3, if_neg h4, if_neg h5, if_pos h6]
      rw [henc]
      show parseStringBody ((fuel + cs.length + 1) + 1)
        ('\\' :: 'u' :: hexChar (c.toNat / 4096 % 16) :: hexChar (c.toNat / 256 % 16) ::
          hexChar (c.toNat / 16 % 16) :: hexChar (c.toNat % 16) ::
          (cs.flatMap rally_s3_to_es.escapeCharSlow ++ '"' :: rest)) = some (c :: cs, rest)
      rw [psb_unicode_low (hex4_hexDigits c.toNat h6) (by omega) hrec, Char.ofNat_toNat]
    · have henc : rally_s3_to_es.escapeCharSlow c = [c] := by
        unfold rally_s3_to_es.escapeCharSlow
        rw [if_neg h1, if_neg h2, if_neg h3, if_neg h4, if_neg h5, if_neg h6]
      rw [henc]
      show parseStringBody ((fuel + cs.length + 1) + 1)
        (c :: (cs.flatMap rally_s3_to_es.escapeCharSlow ++ '"' :: rest)) = some (c :: cs, rest)
      exact psb_raw_ok h1 h2 (by omega) hrec

/--
`escape_json_string` round trips through the string body parser on both
its fast path and its slow path: the escaped id followed by a closing
quote parses back to exactly the original characters.
-/
theorem parseStringBody_escape_json (s : String) (fuel : Nat) (rest : List Char) :
    parseStringBody (fuel + s.data.length + 1)
      ((rally_s3_to_es.escape_json_string s).data ++ '"' :: rest) = some (s.data, rest) := by
  unfold rally_s3_to_es.escape_json_string
  by_cases hall : s.data.all (fun c => c != '"' && c != '\\' && decide (0x20 ≤ c.toNat))
  · rw [if_pos hall]
    refine parseStringBody_plain s.data ?_ fuel rest
    intro c hc
    have hb := List.all_eq_true.mp hall c hc
    simp only [Bool.and_eq_true, bne_iff_ne, decide_eq_true_eq] at hb
    exact ⟨hb.1.1, hb.1.2, hb.2⟩
  · rw [if_neg hall]
    exact parseStringBody_escaped s.data fuel rest

/--
Every escape expansion of one character is at least one character long.
-/
theorem escapeCharSlow_len_pos (c : Char) : 1 ≤ (rally_s3_to_es.escapeCharSlow c).length := by
  unfold rally_s3_to_es.escapeCharSlow
  split_ifs <;> simp [hexDigits4]

/--
Escaping a character list never shortens it.
-/
theorem flatMap_escape_len :
    ∀ cs : List Char, cs.length ≤ (cs.flatMap rally_s3_to_es.escapeCharSlow).length := by
  intro cs
  induction cs with
  | nil => simp
  | cons c cs ih =>
    rw [show (c :: cs).flatMap rally_s3_to_es.escapeCharSlow =
          rally_s3_to_es.escapeCharSlow c ++ cs.flatMap rally_s3_to_es.escapeCharSlow from rfl,
        List.length_append, List.length_cons]
    have := escapeCharSlow_len_pos c
    omega

/--
`escape_json_string` never shortens its input.
-/
theorem escape_len_ge (s : String) :
    s.data.length ≤ (rally_s3_to_es.escape_json_string s).data.length := by
  unfold rally_s3_to_es.escape_json_string
  by_cases hall : s.data.all (fun c => c != '"' && c != '\\' && decide (0x20 ≤ c.toNat))
  · rw [if_pos hall]
  · rw [if_neg hall]
    exact flatMap_escape_len s.data

/--
Parsing the action line skeleton: with any escaped id body `E` whose
string parse succeeds, the full value parse of
`\x7b"index":\x7b"_id":"E"\x7d\x7d` returns the nested two member
object and consumes the whole input.
-/
theorem parseValue_action_generic (g : Nat) (E cs : List Char)
    (hE : parseStringBody (g + 3) (E ++ ('"' :: '\x7d' :: '\x7d' :: [])) = some (cs, ['\x7d', '\x7d'])) :
    parseValue (g + 8)
      ('\x7b' :: '"' :: 'i' :: 'n' :: 'd' :: 'e' :: 'x' :: '"' :: ':' :: '\x7b' ::
        '"' :: '_' :: 'i' :: 'd' :: '"' :: ':' :: '"' :: (E ++ ('"' :: '\x7d' :: '\x7d' :: []))) =
      some (.obj [("index", .obj [("_id", .str (String.mk cs))])], []) := by
  have h2 : parseValue (g + 4) ('"' :: (E ++ ('"' :: '\x7d' :: '\x7d' :: []))) =
      some (Json.str (String.mk cs), ['\x7d', '\x7d']) := by
    calc parseValue (g + 4) ('"' :: (E ++ ('"' :: '\x7d' :: '\x7d' :: [])))
        = (match parseStringBody (g + 3) (E ++ ('"' :: '\x7d' :: '\x7d' :: [])) with
           | none => none
           | some (cs2, r) => some (Json.str (String.mk cs2), r)) := rfl
      _ = some (Json.str (String.mk cs), ['\x7d', '\x7d']) := by rw [hE]
  have h3 : parseMembers (g + 5)
      ('"' :: '_' :: 'i' :: 'd' :: '"' :: ':' :: '"' :: (E ++ ('"' :: '\x7d' :: '\x7d' :: []))) [] =
      some ([("_id", Json.str (String.mk cs))], ['\x7d']) := by
    calc parseMembers (g + 5)
          ('"' :: '_' :: 'i' :: 'd' :: '"' :: ':' :: '"' :: (E ++ ('"' :: '\x7d' :: '\x7d' :: []))) []
        = (match parseValue (g + 4) ('"' :: (E ++ ('"' :: '\x7d' :: '\x7d' :: []))) with
           | none => none
           | some (v, r3) =>
             match skipWs r3 with
             | ',' :: r4 => parseMembers (g + 4) r4 (insertMember "_id" v [])
             | '\x7d' :: r4 => some (insertMember "_id" v [], r4)
             | _ => none) := rfl
      _ = some ([("_id", Json.str (String.mk cs))], ['\x7d']) := by rw [h2]; rfl
  have h4 : parseValue (g + 6)
      ('\x7b' :: '"' :: '_' :: 'i' :: 'd' :: '"' :: ':' :: '"' :: (E ++ ('"' :: '\x7d' :: '\x7d' :: []))) =
      some (Json.obj [("_id", Json.str (String.mk cs))], ['\x7d']) := by
    calc parseValue (g + 6)
          ('\x7b' :: '"' :: '_' :: 'i' :: 'd' :: '"' :: ':' :: '"' :: (E ++ ('"' :: '\x7d' :: '\x7d' :: [])))
        = (match parseMembers (g + 5)
              ('"' :: '_' :: 'i' :: 'd' :: '"' :: ':' :: '"' :: (E ++ ('"' :: '\x7d' :: '\x7d' :: []))) [] with
           | none => none
           | some (kvs, r) => some (Json.obj kvs, r)) := rfl
      _ = some (Json.obj [("_id", Json.str (String.mk cs))], ['\x7d']) := by rw [h3]
  have h5 : parseMembers (g + 7)
      ('"' :: 'i' :: 'n' :: 'd' :: 'e' :: 'x' :: '"' :: ':' :: '\x7b' ::
        '"' :: '_' :: 'i' :: 'd' :: '"' :: ':' :: '"' :: (E ++ ('"' :: '\x7d' :: '\x7d' :: []))) [] =
      some ([("index", Json.obj [("_id", Json.str (String.mk cs))])], []) := by
    calc parseMembers (g + 7)
          ('"' :: 'i' :: 'n' :: 'd' :: 'e' :: 'x' :: '"' :: ':' :: '\x7b' ::
            '"' :: '_' :: 'i' :: 'd' :: '"' :: ':' :: '"' :: (E ++ ('"' :: '\x7d' :: '\x7d' :: []))) []
        = (match parseValue (g + 6)
              ('\x7b' :: '"' :: '_' :: 'i' :: 'd' :: '"' :: ':' :: '"' ::
                (E ++ ('"' :: '\x7d' :: '\x7d' :: []))) with
           | none => none
           | some (v, r3) =>
             match skipWs r3 with
             | ',' :: r4 => parseMembers (g + 6) r4 (insertMember "index" v [])
             | '\x7d' :: r4 => some (insertMember "index" v [], r4)
             | _ => none) := rfl
      _ = some ([("index", Json.obj [("_id", Json.str (String.mk cs))])], []) := by rw [h4]; rfl
  calc parseValue (g + 8)
        ('\x7b' :: '"' :: 'i' :: 'n' :: 'd' :: 'e' :: 'x' :: '"' :: ':' :: '\x7b' ::
          '"' :: '_' :: 'i' :: 'd' :: '"' :: ':' :: '"' :: (E ++ ('"' :: '\x7d' :: '\x7d' :: [])))
      = (match parseMembers (g + 7)
            ('"' :: 'i' :: 'n' :: 'd' :: 'e' :: 'x' :: '"' :: ':' :: '\x7b' ::
              '"' :: '_' :: 'i' :: 'd' :: '"' :: ':' :: '"' :: (E ++ ('"' :: '\x7d' :: '\x7d' :: []))) [] with
         | none => none
         | some (kvs, r) => some (Json.obj kvs, r)) := rfl
    _ = some (.obj [("index", .obj [("_id", .str (String.mk cs))])], []) := by rw [h5]

/--
C5.  For every document id string `s`, the generated action line
`\x7b"index":\x7b"_id":"<escaped-id>"\x7d\x7d` is valid JSON and parsing
it back yields `index._id` equal to `s` exactly: `escape_json_string`
composed with JSON string parsing is the identity on ids.
-/
theorem action_line_roundtrip (s : String) :
    parseJson (rally_s3_to_es.build_es_action_line (some s)) =
      some (.obj [("index", .obj [("_id", .str s)])]) := by
  have hlen := escape_len_ge s
  have hE : parseStringBody ((rally_s3_to_es.escape_json_string s).data.length + 16)
      ((rally_s3_to_es.escape_json_string s).data ++ ('"' :: '\x7d' :: '\x7d' :: [])) =
      some (s.data, ['\x7d', '\x7d']) := by
    have hE0 := parseStringBody_escape_json s
      ((rally_s3_to_es.escape_json_string s).data.length - s.data.length + 15)
      ('\x7d' :: '\x7d' :: [])
    rw [show (rally_s3_to_es.escape_json_string s).data.length + 16 =
          ((rally_s3_to_es.escape_json_string s).data.length - s.data.length + 15) +
            s.data.length + 1 from by omega]
    exact hE0
  have hdata : (rally_s3_to_es.build_es_action_line (some s)).data =
      '\x7b' :: '"' :: 'i' :: 'n' :: 'd' :: 'e' :: 'x' :: '"' :: ':' :: '\x7b' ::
        '"' :: '_' :: 'i' :: 'd' :: '"' :: ':' :: '"' ::
        ((rally_s3_to_es.escape_json_string s).data ++ ('"' :: '\x7d' :: '\x7d' :: [])) := by
    show (("\x7b\"index\":\x7b\"_id\":\"" ++ rally_s3_to_es.escape_json_string s) ++ "\"\x7d\x7d").data = _
    rw [String.data_append, String.data_append, List.append_assoc]
    rfl
  have hfuel : (rally_s3_to_es.build_es_action_line (some s)).data.length + 1 =
      ((rally_s3_to_es.escape_json_string s).data.length + 13) + 8 := by
    rw [hdata]
    simp only [List.length_cons, List.length_append, List.length_nil]
  unfold parseJson
  rw [hfuel, hdata,
      parseValue_action_generic ((rally_s3_to_es.escape_json_string s).data.length + 13)
        (rally_s3_to_es.escape_json_string s).data s.data hE]
  rfl

end Kvx
